import Mathlib

/-!
Verification of the DokuGen sudoku generator (src/main.py).

The Python module is shallowly embedded: machine state (the mutable nested
`sudoku` list, the `treshold` candidate pools, the cursor variables of the
generation loop) is passed explicitly, exceptions become an `Except PyErr`
result, and the random number generator is an explicit oracle (a list of
draws; `randint(0, k-1)` on oracle value `r` yields `r % k`).  Python list
indexing, including negative indices, is modelled by `pyResolve`; `//` and
`%` on Python ints are `Int.fdiv` and `Int.emod`.  Object identity of the
`sudoku` lists (needed for the aliasing behaviour of the `architecture`
constructor parameter) is modelled by a small heap: a list of grids indexed
by natural-number references.
-/

/-- `AVAILABLE_CHARS` of src/main.py line 7: `list("1..9A..Za..z?&!")`,
a list of one-character strings. -/
def AVAILABLE_CHARS : List String :=
  "123456789ABCDEFGHIJKLMNOPQRSTUVWXYZabcdefghijklmnopqrstuvwxyz?&!".toList.map
    (fun c => String.mk [c])

/-- The exceptions of src/main.py lines 10-51 (plus the built-in Python
errors that list indexing and `randint` can raise). -/
inductive PyErr where
  | requestOutOfBounds : PyErr
  | incorrectCharacter : String → PyErr
  | isNotCharacter : String → PyErr
  | incorrectSize : Int → PyErr
  | illegalMove : PyErr
  | indexError : PyErr
  | valueError : PyErr
deriving DecidableEq, Repr

/-- Resolution of a Python list index (negative indices count from the
end); `none` is Python's `IndexError`. -/
def pyResolve (len : Nat) (i : Int) : Option Nat :=
  if 0 ≤ i then (if i < (len : Int) then some i.toNat else none)
  else (if 0 ≤ (len : Int) + i then some ((len : Int) + i).toNat else none)

/-- Python `l[i]`. -/
def pyGet (l : List α) (i : Int) : Option α :=
  (pyResolve l.length i).bind fun j => l[j]?

/-- Python `l[i] = a`. -/
def pySet (l : List α) (i : Int) (a : α) : Option (List α) :=
  (pyResolve l.length i).map fun j => l.set j a

/-- The nested `.sudoku` list: line of squares / square / inner line / cell. -/
abbrev Grid := List (List (List (List String)))

/-- The `Sudoku` object's fields (src/main.py lines 55-72): `size`,
`chars` and the nested `sudoku` list (held by value here; the heap model
below recovers sharing). -/
structure Sudoku where
  size : Nat
  chars : List String
  sudoku : Grid
deriving DecidableEq, Repr

/-- The addressing chain of `get_cell` (src/main.py lines 172-176):
`sudoku[line // size][column // size][line % size][column % size]`,
on already-0-based in-range coordinates. -/
def cellOpt (g : Grid) (size : Nat) (column line : Nat) : Option String :=
  (g[line / size]?).bind fun sudoku_line =>
    (sudoku_line[column / size]?).bind fun sudoku_square =>
      (sudoku_square[line % size]?).bind fun square_line =>
        square_line[column % size]?

/-- `Sudoku.get_cell` (src/main.py lines 154-178). -/
def get_cell (s : Sudoku) (column line : Int) : Except PyErr String :=
  let column1 := column - 1
  let line1 := line - 1
  if (0 ≤ line1 ∧ line1 < (s.size ^ 2 : Nat)) ∧ (0 ≤ column1 ∧ column1 < (s.size ^ 2 : Nat)) then
    match cellOpt s.sudoku s.size column1.toNat line1.toNat with
    | some cell => .ok cell
    | none => .error .indexError
  else .error .requestOutOfBounds

/-- The loop of `get_line_elements`: `for sudoku_square in sudoku_line:
result += sudoku_square[line % size]`. -/
def collectRows (k : Nat) : List (List (List String)) → Option (List String)
  | [] => some []
  | sudoku_square :: rest =>
    match sudoku_square[k]? with
    | none => none
    | some square_line => (collectRows k rest).map (fun ys => square_line ++ ys)

/-- `Sudoku.get_line_elements` (src/main.py lines 180-205). -/
def get_line_elements (s : Sudoku) (line : Int) : Except PyErr (List String) :=
  let line1 := line - 1
  if 0 ≤ line1 ∧ line1 < (s.size ^ 2 : Nat) then
    match s.sudoku[line1.toNat / s.size]? with
    | none => .error .indexError
    | some sudoku_line =>
      match collectRows (line1.toNat % s.size) sudoku_line with
      | none => .error .indexError
      | some result => .ok result
  else .error .requestOutOfBounds

/-- The inner loop of `get_column_elements`:
`for square_line in sudoku_square: result.append(square_line[column % size])`. -/
def collectColOfSquare (k : Nat) : List (List String) → Option (List String)
  | [] => some []
  | square_line :: rest =>
    match square_line[k]? with
    | none => none
    | some x => (collectColOfSquare k rest).map (fun ys => x :: ys)

/-- The outer loop of `get_column_elements`: `for sudoku_line in sudoku:
sudoku_square = sudoku_line[column // size]; ...`. -/
def collectColumn (j k : Nat) : Grid → Option (List String)
  | [] => some []
  | sudoku_line :: rest =>
    match sudoku_line[j]? with
    | none => none
    | some sudoku_square =>
      match collectColOfSquare k sudoku_square with
      | none => none
      | some xs => (collectColumn j k rest).map (fun ys => xs ++ ys)

/-- `Sudoku.get_column_elements` (src/main.py lines 207-231). -/
def get_column_elements (s : Sudoku) (column : Int) : Except PyErr (List String) :=
  let column1 := column - 1
  if 0 ≤ column1 ∧ column1 < (s.size ^ 2 : Nat) then
    match collectColumn (column1.toNat / s.size) (column1.toNat % s.size) s.sudoku with
    | none => .error .indexError
    | some result => .ok result
  else .error .requestOutOfBounds

/-- `Sudoku.get_square_elements` (src/main.py lines 233-260); the loop
`for square_line in sudoku[sl][sc]: result += square_line` flattens the
addressed square. -/
def get_square_elements (s : Sudoku) (square_column_no square_line_no : Int) :
    Except PyErr (List String) :=
  let sc := square_column_no - 1
  let sl := square_line_no - 1
  if (0 ≤ sc ∧ sc < (s.size : Nat)) ∧ (0 ≤ sl ∧ sl < (s.size : Nat)) then
    match (s.sudoku[sl.toNat]?).bind fun sudoku_line => sudoku_line[sc.toNat]? with
    | none => .error .indexError
    | some square => .ok square.flatten
  else .error .requestOutOfBounds

/-- `Sudoku.is_violating` (src/main.py lines 287-314). -/
def is_violating (s : Sudoku) (char : String) (column line : Int) : Except PyErr Bool :=
  if char.length ≠ 1 then .error (.isNotCharacter char)
  else if char ∉ s.chars then .error (.incorrectCharacter char)
  else
    match get_line_elements s line with
    | .error e => .error e
    | .ok line_elements =>
      match get_column_elements s column with
      | .error e => .error e
      | .ok column_elements =>
        match get_square_elements s ((column - 1).fdiv (s.size : Int) + 1)
            ((line - 1).fdiv (s.size : Int) + 1) with
        | .error e => .error e
        | .ok square_elements =>
          .ok (decide (char ∈ line_elements) || decide (char ∈ column_elements) ||
            decide (char ∈ square_elements))

/-- `Sudoku.insert_into_cell` (src/main.py lines 316-330); the write
`sudoku[(line-1)//size][(column-1)//size][(line-1)%size][(column-1)%size] = char`
is performed with Python index semantics (negative indices allowed). -/
def insert_into_cell (s : Sudoku) (char : String) (column line : Int) (no_check : Bool) :
    Except PyErr Sudoku :=
  match (if no_check then .ok false else is_violating s char column line :
      Except PyErr Bool) with
  | .error e => .error e
  | .ok true => .error .illegalMove
  | .ok false =>
    match pyResolve s.sudoku.length ((line - 1).fdiv (s.size : Int)) with
    | none => .error .indexError
    | some j1 =>
      match s.sudoku[j1]? with
      | none => .error .indexError
      | some sudoku_line =>
        match pyResolve sudoku_line.length ((column - 1).fdiv (s.size : Int)) with
        | none => .error .indexError
        | some j2 =>
          match sudoku_line[j2]? with
          | none => .error .indexError
          | some sudoku_square =>
            match pyResolve sudoku_square.length ((line - 1).emod (s.size : Int)) with
            | none => .error .indexError
            | some j3 =>
              match sudoku_square[j3]? with
              | none => .error .indexError
              | some square_line =>
                match pyResolve square_line.length ((column - 1).emod (s.size : Int)) with
                | none => .error .indexError
                | some j4 =>
                  .ok { s with
                    sudoku := s.sudoku.set j1 (sudoku_line.set j2
                      (sudoku_square.set j3 (square_line.set j4 char))) }

/-- The condition of the draw loop in the constructor (src/main.py line 120):
`pick is None or (self.is_violating(pick, column, line) and len(treshold[i]) > 1)`,
with Python short-circuit evaluation. -/
def pickCond (s : Sudoku) (column line : Int) (pool : List String) (pick : Option String) :
    Except PyErr Bool :=
  match pick with
  | none => .ok true
  | some p =>
    match is_violating s p column line with
    | .error e => .error e
    | .ok v => .ok (v && decide (pool.length > 1))

/-- The draw loop of the constructor (src/main.py lines 117-125):
replenish the pool when drained, draw one random candidate, remove it
from the pool.  One oracle value is consumed per draw; an exhausted oracle
yields `none` (the run is not determined by the given oracle). -/
def pickLoop (s : Sudoku) (column line : Int) :
    List Nat → List String → Option String → Except PyErr (Option (String × List String))
  | [], pool, pick =>
    match pickCond s column line pool pick with
    | .error e => .error e
    | .ok true => .ok none
    | .ok false =>
      match pick with
      | some p => .ok (some (p, pool))
      | none => .ok none
  | r :: rest, pool, pick =>
    match pickCond s column line pool pick with
    | .error e => .error e
    | .ok false =>
      match pick with
      | some p => .ok (some (p, pool))
      | none => .ok none
    | .ok true =>
      let pool1 := if pool.length < 1 then s.chars else pool
      match pool1[r % pool1.length]? with
      | none => .error .valueError
      | some p => pickLoop s column line rest (pool1.erase p) (some p)

/-- The mutable state of the generation loop (src/main.py lines 101-146):
the object under construction, the `treshold` pools and the cursor
variables `line`, `column`, `i`. -/
structure GenState where
  sud : Sudoku
  treshold : List (List String)
  line : Int
  column : Int
  i : Int

/-- The generation loop (src/main.py lines 115-146), flattened: the outer
`while line < size**2 + 1` guard is checked first; while the inner guard
`0 < column < size**2 + 1` holds the loop body (lines 117-139) runs, and
when it fails the cursor is wrapped (lines 141-146) and the guards are
re-checked.  One oracle entry is consumed per step; `.ok none` means the
oracle ran out before the loop finished. -/
def genLoop : List (List Nat) → GenState → Except PyErr (Option Sudoku)
  | [], st =>
    if st.line < (st.sud.size ^ 2 : Nat) + 1 then .ok none else .ok (some st.sud)
  | rands :: rest, st =>
    if st.line < (st.sud.size ^ 2 : Nat) + 1 then
      if 0 < st.column ∧ st.column < (st.sud.size ^ 2 : Nat) + 1 then
        match pyGet st.treshold st.i with
        | none => .error .indexError
        | some pool =>
          match pickLoop st.sud st.column st.line rands pool none with
          | .error e => .error e
          | .ok none => .ok none
          | .ok (some (pick, pool2)) =>
            match pySet st.treshold st.i pool2 with
            | none => .error .indexError
            | some treshold1 =>
              match is_violating st.sud pick st.column st.line with
              | .error e => .error e
              | .ok true =>
                match insert_into_cell st.sud "#" st.column st.line true with
                | .error e => .error e
                | .ok sud2 =>
                  match pySet treshold1 st.i st.sud.chars with
                  | none => .error .indexError
                  | some treshold2 =>
                    genLoop rest
                      ⟨sud2, treshold2, st.line, st.column - 1, st.i - 1⟩
              | .ok false =>
                match insert_into_cell st.sud pick st.column st.line true with
                | .error e => .error e
                | .ok sud2 =>
                  genLoop rest
                    ⟨sud2, treshold1, st.line, st.column + 1, st.i + 1⟩
      else
        if 0 < st.column then
          genLoop rest { st with line := st.line + 1, column := 1 }
        else
          genLoop rest { st with line := st.line - 1, column := (st.sud.size ^ 2 : Nat) }
    else .ok (some st.sud)

/-- The `Sudoku` constructor (src/main.py lines 73-149): the architecture
branch (lines 81-86), the size validation (lines 91-92), and otherwise the
empty grid, the pools and the generation loop.  The oracle drives all
`randint` calls. -/
def sudokuNew (size : Int) (architecture : Grid) (randss : List (List Nat)) :
    Except PyErr (Option Sudoku) :=
  if architecture.length > 0 then
    .ok (some { size := architecture.length,
                chars := AVAILABLE_CHARS.take (architecture.length ^ 2),
                sudoku := architecture })
  else if ¬(2 ≤ size ∧ size < 8) then .error (.incorrectSize size)
  else
    let n := size.toNat
    let chars := AVAILABLE_CHARS.take (n ^ 2)
    genLoop randss
      { sud := { size := n, chars := chars,
                 sudoku := List.replicate n (List.replicate n
                   (List.replicate n (List.replicate n "#"))) },
        treshold := List.replicate (n ^ 4) chars,
        line := 1, column := 1, i := 0 }

/-- The poking loop of `Sudoku.poke` (src/main.py lines 347-360), flattened:
the remaining poke count replaces `for _ in range(amount)`, and each oracle
entry is one attempt of the rejection-sampling `while target is None` loop.
`.ok none` means the oracle ran out before `amount` cells were cleared. -/
def pokeLoop : List (Nat × Nat × Nat × Nat) → Grid → Nat → Except PyErr (Option Grid)
  | _, g, 0 => .ok (some g)
  | [], _, _ + 1 => .ok none
  | (a, b, c, d) :: rest, g, amount + 1 =>
    match g[a % g.length]? with
    | none => .error .valueError
    | some sudoku_line =>
      match sudoku_line[b % sudoku_line.length]? with
      | none => .error .valueError
      | some sudoku_square =>
        match sudoku_square[c % sudoku_square.length]? with
        | none => .error .valueError
        | some square_line =>
          let target := d % square_line.length
          match square_line[target]? with
          | none => .error .valueError
          | some v =>
            if v ≠ "#" then
              pokeLoop rest
                (g.set (a % g.length) (sudoku_line.set (b % sudoku_line.length)
                  (sudoku_square.set (c % sudoku_square.length)
                    (square_line.set target "#")))) amount
            else pokeLoop rest g (amount + 1)

/-- `Sudoku.poke` (src/main.py lines 332-362) on the value level:
`Sudoku(architecture=deepcopy(self.sudoku))` followed by the poking loop. -/
def poke (s : Sudoku) (amount : Nat) (choices : List (Nat × Nat × Nat × Nat))
    (randss : List (List Nat)) : Except PyErr (Option Sudoku) :=
  match sudokuNew 3 s.sudoku randss with
  | .error e => .error e
  | .ok none => .ok none
  | .ok (some new_sudoku) =>
    match pokeLoop choices new_sudoku.sudoku amount with
    | .error e => .error e
    | .ok none => .ok none
    | .ok (some poked) => .ok (some { new_sudoku with sudoku := poked })

/-! ### Heap model

Python's `.sudoku` attribute holds a reference to a list object.  The
constructor's architecture branch stores the caller's list itself
(`self.sudoku = architecture`, line 82), while `poke` passes a
`deepcopy`.  A heap (list of grids indexed by references) makes this
observable. -/

abbrev Heap := List Grid

/-- A `Sudoku` object whose `sudoku` attribute is a heap reference. -/
structure SudokuRef where
  sudokuRef : Nat
  size : Nat
  chars : List String
deriving DecidableEq, Repr

/-- `Sudoku(architecture=h[archRef])` for a non-empty architecture
(src/main.py lines 81-86): the reference is stored as-is, no copy. -/
def heapSudokuFromArchitecture (h : Heap) (archRef : Nat) : Option SudokuRef :=
  match h[archRef]? with
  | none => none
  | some architecture =>
    if architecture.length > 0 then
      some { sudokuRef := archRef, size := architecture.length,
             chars := AVAILABLE_CHARS.take (architecture.length ^ 2) }
    else none

/-- Dereference a `SudokuRef` to the value-level `Sudoku` it currently
denotes. -/
def heapView (h : Heap) (s : SudokuRef) : Option Sudoku :=
  (h[s.sudokuRef]?).map fun g => { size := s.size, chars := s.chars, sudoku := g }

/-- `get_cell` through the heap. -/
def heapGetCell (h : Heap) (s : SudokuRef) (column line : Int) : Except PyErr String :=
  match heapView h s with
  | none => .error .indexError
  | some sv => get_cell sv column line

/-- `insert_into_cell` through the heap: the write mutates the referenced
grid in place, so it is visible through every reference to it. -/
def heapInsertIntoCell (h : Heap) (s : SudokuRef) (char : String) (column line : Int)
    (no_check : Bool) : Except PyErr Heap :=
  match heapView h s with
  | none => .error .indexError
  | some sv =>
    match insert_into_cell sv char column line no_check with
    | .error e => .error e
    | .ok sv2 => .ok (h.set s.sudokuRef sv2.sudoku)

/-- `Sudoku.poke` through the heap: `deepcopy(self.sudoku)` allocates a
fresh grid, the new `Sudoku` wraps that fresh reference, and the poking
loop mutates only the fresh grid. -/
def heapPoke (h : Heap) (s : SudokuRef) (amount : Nat)
    (choices : List (Nat × Nat × Nat × Nat)) (randss : List (List Nat)) :
    Except PyErr (Option (Heap × SudokuRef)) :=
  match h[s.sudokuRef]? with
  | none => .error .indexError
  | some g =>
    match sudokuNew 3 g randss with
    | .error e => .error e
    | .ok none => .ok none
    | .ok (some new_sudoku) =>
      let h1 := h ++ [new_sudoku.sudoku]
      let newRef := h.length
      match pokeLoop choices new_sudoku.sudoku amount with
      | .error e => .error e
      | .ok none => .ok none
      | .ok (some poked) =>
        .ok (some (h1.set newRef poked,
          { sudokuRef := newRef, size := new_sudoku.size, chars := new_sudoku.chars }))

/-! ### Well-formedness of a grid and basic facts -/

/-- A grid of box size `n`: `n` lines of squares, each of `n` squares,
each of `n` inner lines of `n` cells. -/
def wfGrid (n : Nat) (g : Grid) : Prop :=
  g.length = n ∧ ∀ sl ∈ g, sl.length = n ∧ ∀ sq ∈ sl, sq.length = n ∧ ∀ r ∈ sq, r.length = n

instance (n : Nat) (g : Grid) : Decidable (wfGrid n g) := by
  unfold wfGrid; infer_instance

theorem AVAILABLE_CHARS_length : AVAILABLE_CHARS.length = 64 := rfl

theorem AVAILABLE_CHARS_nodup : AVAILABLE_CHARS.Nodup := by
  refine List.Nodup.map ?_ (by decide)
  intro a b h
  simpa using congrArg (fun s => s.data) h

theorem hash_not_mem_available : "#" ∉ AVAILABLE_CHARS := by decide

theorem hash_not_mem_take (k : Nat) : "#" ∉ AVAILABLE_CHARS.take k := fun h =>
  hash_not_mem_available (List.mem_of_mem_take h)

theorem take_chars_nodup (k : Nat) : (AVAILABLE_CHARS.take k).Nodup :=
  (List.take_sublist k AVAILABLE_CHARS).nodup AVAILABLE_CHARS_nodup

theorem take_chars_length {k : Nat} (h : k ≤ 64) : (AVAILABLE_CHARS.take k).length = k := by
  rw [List.length_take, AVAILABLE_CHARS_length]
  omega

theorem div_lt_of_lt_sq {n x : Nat} (h : x < n ^ 2) : x / n < n := by
  rcases Nat.eq_zero_or_pos n with rfl | hn
  · simp at h
  · rw [Nat.div_lt_iff_lt_mul hn]
    calc x < n ^ 2 := h
    _ = n * n := by ring

/-- Extract the four layers of a well-formed grid at physical indices. -/
theorem wfGrid_layers {n : Nat} {g : Grid} (hwf : wfGrid n g) {j1 j2 j3 : Nat}
    (h1 : j1 < n) (h2 : j2 < n) (h3 : j3 < n) :
    ∃ sl sq r, g[j1]? = some sl ∧ sl[j2]? = some sq ∧ sq[j3]? = some r ∧
      sl.length = n ∧ sq.length = n ∧ r.length = n := by
  obtain ⟨hlen, hmem⟩ := hwf
  have hj1 : j1 < g.length := by omega
  obtain ⟨hsl, hmem2⟩ := hmem g[j1] (List.getElem_mem hj1)
  have hj2 : j2 < g[j1].length := by omega
  obtain ⟨hsq, hmem3⟩ := hmem2 g[j1][j2] (List.getElem_mem hj2)
  have hj3 : j3 < g[j1][j2].length := by omega
  exact ⟨g[j1], g[j1][j2], g[j1][j2][j3], List.getElem?_eq_getElem hj1,
    List.getElem?_eq_getElem hj2, List.getElem?_eq_getElem hj3, hsl, hsq,
    hmem3 g[j1][j2][j3] (List.getElem_mem hj3)⟩

/-- `cellOpt` is total on a well-formed grid. -/
theorem cellOpt_wf {n : Nat} {g : Grid} (hwf : wfGrid n g) (hn : 0 < n)
    {c l : Nat} (hc : c < n ^ 2) (hl : l < n ^ 2) :
    ∃ v, cellOpt g n c l = some v := by
  obtain ⟨sl, sq, r, hsl, hsq, hr, _, _, hrl⟩ :=
    wfGrid_layers hwf (div_lt_of_lt_sq hl) (div_lt_of_lt_sq hc) (Nat.mod_lt l hn)
  have hcm : c % n < r.length := by rw [hrl]; exact Nat.mod_lt c hn
  exact ⟨r[c % n], by simp [cellOpt, hsl, hsq, hr, List.getElem?_eq_getElem hcm]⟩

/-! ### Indexing concatenations of equal-length chunks -/

theorem flatten_getElem? {α : Type} {L : List (List α)} {n : Nat} (hn : 0 < n)
    (h : ∀ l ∈ L, l.length = n) (i : Nat) :
    L.flatten[i]? = (L[i / n]?).bind fun l => l[i % n]? := by
  induction L generalizing i with
  | nil => simp
  | cons A T ih =>
    have hA : A.length = n := h A (by simp)
    rcases Nat.lt_or_ge i n with hi | hi
    · have h0 : i / n = 0 := Nat.div_eq_of_lt hi
      have hm : i % n = i := Nat.mod_eq_of_lt hi
      rw [List.flatten_cons, List.getElem?_append_left (by omega), h0, hm]
      simp
    · obtain ⟨j, rfl⟩ : ∃ j, i = n + j := ⟨i - n, by omega⟩
      have hdiv : (n + j) / n = j / n + 1 := by
        rw [Nat.add_comm n j, Nat.add_div_right _ hn]
      have hmod : (n + j) % n = j % n := Nat.add_mod_left n j
      rw [List.flatten_cons, List.getElem?_append_right (by omega), hA, hdiv, hmod,
        Nat.add_sub_cancel_left]
      simpa using ih (fun l hl => h l (by simp [hl])) j

theorem collectRows_wf {n : Nat} (hn : 0 < n) {k : Nat} {sl : List (List (List String))}
    (h : ∀ sq ∈ sl, ∃ r, sq[k]? = some r ∧ r.length = n) :
    ∃ ys, collectRows k sl = some ys ∧ ys.length = sl.length * n ∧
      ∀ i : Nat, ys[i]? = (sl[i / n]?).bind fun sq => (sq[k]?).bind fun r => r[i % n]? := by
  induction sl with
  | nil => exact ⟨[], rfl, by simp, by simp⟩
  | cons sq T ih =>
    obtain ⟨r, hr, hrl⟩ := h sq (by simp)
    obtain ⟨ys, hys, hlen, hidx⟩ := ih (fun q hq => h q (by simp [hq]))
    refine ⟨r ++ ys, by simp [collectRows, hr, hys], by simp [hlen, hrl]; ring, ?_⟩
    intro i
    rcases Nat.lt_or_ge i n with hi | hi
    · rw [List.getElem?_append_left (by omega), Nat.div_eq_of_lt hi, Nat.mod_eq_of_lt hi]
      simp [hr]
    · obtain ⟨j, rfl⟩ : ∃ j, i = n + j := ⟨i - n, by omega⟩
      have hdiv : (n + j) / n = j / n + 1 := by
        rw [Nat.add_comm n j, Nat.add_div_right _ hn]
      have hmod : (n + j) % n = j % n := Nat.add_mod_left n j
      rw [List.getElem?_append_right (by omega), hrl, hdiv, hmod, Nat.add_sub_cancel_left]
      simpa using hidx j

theorem collectColOfSquare_wf {k : Nat} {sq : List (List String)}
    (h : ∀ r ∈ sq, ∃ x, r[k]? = some x) :
    ∃ ys, collectColOfSquare k sq = some ys ∧ ys.length = sq.length ∧
      ∀ i : Nat, ys[i]? = (sq[i]?).bind fun r => r[k]? := by
  induction sq with
  | nil => exact ⟨[], rfl, by simp, by simp⟩
  | cons r T ih =>
    obtain ⟨x, hx⟩ := h r (by simp)
    obtain ⟨ys, hys, hlen, hidx⟩ := ih (fun q hq => h q (by simp [hq]))
    refine ⟨x :: ys, by simp [collectColOfSquare, hx, hys], by simp [hlen], ?_⟩
    intro i
    match i with
    | 0 => simp [hx]
    | i + 1 => simpa using hidx i

theorem collectColumn_wf {n : Nat} (hn : 0 < n) {j k : Nat} {g : Grid}
    (h : ∀ sl ∈ g, ∃ sq, sl[j]? = some sq ∧ sq.length = n ∧ ∀ r ∈ sq, ∃ x, r[k]? = some x) :
    ∃ ys, collectColumn j k g = some ys ∧ ys.length = g.length * n ∧
      ∀ i : Nat, ys[i]? = (g[i / n]?).bind fun sl => (sl[j]?).bind fun sq =>
        (sq[i % n]?).bind fun r => r[k]? := by
  induction g with
  | nil => exact ⟨[], rfl, by simp, by simp⟩
  | cons sl T ih =>
    obtain ⟨sq, hsq, hsql, hrows⟩ := h sl (by simp)
    obtain ⟨xs, hxs, hxlen, hxidx⟩ := collectColOfSquare_wf hrows
    obtain ⟨ys, hys, hlen, hidx⟩ := ih (fun q hq => h q (by simp [hq]))
    refine ⟨xs ++ ys, by simp [collectColumn, hsq, hxs, hys], by simp [hlen, hxlen, hsql]; ring, ?_⟩
    intro i
    rcases Nat.lt_or_ge i n with hi | hi
    · rw [List.getElem?_append_left (by omega), Nat.div_eq_of_lt hi, Nat.mod_eq_of_lt hi]
      simp [hsq, hxidx i]
    · obtain ⟨j', rfl⟩ : ∃ j', i = n + j' := ⟨i - n, by omega⟩
      have hdiv : (n + j') / n = j' / n + 1 := by
        rw [Nat.add_comm n j', Nat.add_div_right _ hn]
      have hmod : (n + j') % n = j' % n := Nat.add_mod_left n j'
      rw [List.getElem?_append_right (by omega), hxlen, hsql, hdiv, hmod,
        Nat.add_sub_cancel_left]
      simpa using hidx j'

/-! ### Characterisation of the accessors on a well-formed grid -/

theorem get_cell_wf {s : Sudoku} (hwf : wfGrid s.size s.sudoku) (hn : 0 < s.size)
    {c l : Nat} (hc : c < s.size ^ 2) (hl : l < s.size ^ 2) :
    ∃ v, get_cell s ((c : Int) + 1) ((l : Int) + 1) = .ok v ∧
      cellOpt s.sudoku s.size c l = some v := by
  obtain ⟨v, hv⟩ := cellOpt_wf hwf hn hc hl
  refine ⟨v, ?_, hv⟩
  have hcond : ((0:Int) ≤ (l:Int) + 1 - 1 ∧ (l:Int) + 1 - 1 < (s.size ^ 2 : Nat)) ∧
      ((0:Int) ≤ (c:Int) + 1 - 1 ∧ (c:Int) + 1 - 1 < (s.size ^ 2 : Nat)) := by
    constructor <;> constructor <;> omega
  rw [get_cell]
  simp only [if_pos hcond]
  have h1 : ((l : Int) + 1 - 1).toNat = l := by omega
  have h2 : ((c : Int) + 1 - 1).toNat = c := by omega
  rw [h1, h2, hv]

theorem get_cell_ok_iff {s : Sudoku} (hwf : wfGrid s.size s.sudoku) (hn : 0 < s.size)
    {c l : Nat} (hc : c < s.size ^ 2) (hl : l < s.size ^ 2) {v : String} :
    get_cell s ((c : Int) + 1) ((l : Int) + 1) = .ok v ↔
      cellOpt s.sudoku s.size c l = some v := by
  obtain ⟨w, hw1, hw2⟩ := get_cell_wf hwf hn hc hl
  rw [hw1, hw2]
  constructor
  · intro h; cases h; rfl
  · intro h; cases h; rfl

theorem get_line_elements_wf {s : Sudoku} (hwf : wfGrid s.size s.sudoku) (hn : 0 < s.size)
    {l : Nat} (hl : l < s.size ^ 2) :
    ∃ L, get_line_elements s ((l : Int) + 1) = .ok L ∧ L.length = s.size ^ 2 ∧
      ∀ c : Nat, L[c]? = cellOpt s.sudoku s.size c l := by
  obtain ⟨hlen, hmem⟩ := hwf
  have hj1 : l / s.size < s.sudoku.length := by rw [hlen]; exact div_lt_of_lt_sq hl
  have hsl := List.getElem?_eq_getElem hj1
  set sl := s.sudoku[l / s.size] with hsldef
  obtain ⟨hsllen, hmem2⟩ := hmem sl (List.getElem_mem hj1)
  have hrows : ∀ sq ∈ sl, ∃ r, sq[l % s.size]? = some r ∧ r.length = s.size := by
    intro sq hsq
    obtain ⟨hsqlen, hmem3⟩ := hmem2 sq hsq
    have hk : l % s.size < sq.length := by rw [hsqlen]; exact Nat.mod_lt l hn
    exact ⟨sq[l % s.size], List.getElem?_eq_getElem hk,
      hmem3 _ (List.getElem_mem hk)⟩
  obtain ⟨ys, hys, hyslen, hidx⟩ := collectRows_wf hn hrows
  have hcond : (0:Int) ≤ (l:Int) + 1 - 1 ∧ (l:Int) + 1 - 1 < (s.size ^ 2 : Nat) := by
    constructor <;> omega
  refine ⟨ys, ?_, by rw [hyslen, hsllen]; ring, ?_⟩
  · rw [get_line_elements]
    simp only [if_pos hcond]
    have h1 : ((l : Int) + 1 - 1).toNat = l := by omega
    rw [h1, hsl]
    simp only [hys]
  · intro c
    rw [hidx c, cellOpt, hsl]
    rfl

theorem get_column_elements_wf {s : Sudoku} (hwf : wfGrid s.size s.sudoku) (hn : 0 < s.size)
    {c : Nat} (hc : c < s.size ^ 2) :
    ∃ L, get_column_elements s ((c : Int) + 1) = .ok L ∧ L.length = s.size ^ 2 ∧
      ∀ l : Nat, L[l]? = cellOpt s.sudoku s.size c l := by
  obtain ⟨hlen, hmem⟩ := hwf
  have hcols : ∀ sl ∈ s.sudoku, ∃ sq, sl[c / s.size]? = some sq ∧ sq.length = s.size ∧
      ∀ r ∈ sq, ∃ x, r[c % s.size]? = some x := by
    intro sl hsl
    obtain ⟨hsllen, hmem2⟩ := hmem sl hsl
    have hj : c / s.size < sl.length := by rw [hsllen]; exact div_lt_of_lt_sq hc
    refine ⟨sl[c / s.size], List.getElem?_eq_getElem hj, ?_, ?_⟩
    · exact (hmem2 _ (List.getElem_mem hj)).1
    · intro r hr
      have hrlen := (hmem2 _ (List.getElem_mem hj)).2 r hr
      have hk : c % s.size < r.length := by rw [hrlen]; exact Nat.mod_lt c hn
      exact ⟨r[c % s.size], List.getElem?_eq_getElem hk⟩
  obtain ⟨ys, hys, hyslen, hidx⟩ := collectColumn_wf hn hcols
  have hcond : (0:Int) ≤ (c:Int) + 1 - 1 ∧ (c:Int) + 1 - 1 < (s.size ^ 2 : Nat) := by
    constructor <;> omega
  refine ⟨ys, ?_, by rw [hyslen, hlen]; ring, ?_⟩
  · rw [get_column_elements]
    simp only [if_pos hcond]
    have h1 : ((c : Int) + 1 - 1).toNat = c := by omega
    rw [h1]
    simp only [hys]
  · intro l
    rw [hidx l, cellOpt]

theorem get_square_elements_wf {s : Sudoku} (hwf : wfGrid s.size s.sudoku) (hn : 0 < s.size)
    {bc bl : Nat} (hbc : bc < s.size) (hbl : bl < s.size) :
    ∃ L, get_square_elements s ((bc : Int) + 1) ((bl : Int) + 1) = .ok L ∧
      L.length = s.size ^ 2 ∧
      ∀ ic il : Nat, ic < s.size → il < s.size →
        L[il * s.size + ic]? =
          cellOpt s.sudoku s.size (bc * s.size + ic) (bl * s.size + il) := by
  obtain ⟨hlen, hmem⟩ := hwf
  have hj1 : bl < s.sudoku.length := by omega
  obtain ⟨hsllen, hmem2⟩ := hmem s.sudoku[bl] (List.getElem_mem hj1)
  have hj2 : bc < s.sudoku[bl].length := by omega
  set sq := s.sudoku[bl][bc] with hsqdef
  obtain ⟨hsqlen, hmem3⟩ := hmem2 sq (List.getElem_mem hj2)
  have hflat := flatten_getElem? hn (fun r hr => hmem3 r hr)
  have hflatlen : sq.flatten.length = s.size ^ 2 := by
    rw [List.length_flatten]
    have hmap : ∀ x ∈ sq.map List.length, x = s.size := by
      intro x hx
      obtain ⟨r, hr, rfl⟩ := List.mem_map.mp hx
      exact hmem3 r hr
    rw [List.eq_replicate_of_mem hmap, List.sum_replicate, smul_eq_mul,
      List.length_map, hsqlen]
    ring
  have hcond : ((0:Int) ≤ (bc:Int) + 1 - 1 ∧ (bc:Int) + 1 - 1 < (s.size : Nat)) ∧
      ((0:Int) ≤ (bl:Int) + 1 - 1 ∧ (bl:Int) + 1 - 1 < (s.size : Nat)) := by
    constructor <;> constructor <;> omega
  refine ⟨sq.flatten, ?_, hflatlen, ?_⟩
  · rw [get_square_elements]
    simp only [if_pos hcond]
    have h1 : ((bc : Int) + 1 - 1).toNat = bc := by omega
    have h2 : ((bl : Int) + 1 - 1).toNat = bl := by omega
    rw [h1, h2, List.getElem?_eq_getElem hj1]
    simp only [Option.some_bind, List.getElem?_eq_getElem hj2]
  · intro ic il hic hil
    have hdiv : (il * s.size + ic) / s.size = il := by
      rw [Nat.add_comm, Nat.add_mul_div_right _ _ hn, Nat.div_eq_of_lt hic]
      omega
    have hmod : (il * s.size + ic) % s.size = ic := by
      rw [Nat.add_comm, Nat.add_mul_mod_self_right, Nat.mod_eq_of_lt hic]
    have hdiv2 : (bl * s.size + il) / s.size = bl := by
      rw [Nat.add_comm, Nat.add_mul_div_right _ _ hn, Nat.div_eq_of_lt hil]
      omega
    have hmod2 : (bl * s.size + il) % s.size = il := by
      rw [Nat.add_comm, Nat.add_mul_mod_self_right, Nat.mod_eq_of_lt hil]
    have hdiv3 : (bc * s.size + ic) / s.size = bc := by
      rw [Nat.add_comm, Nat.add_mul_div_right _ _ hn, Nat.div_eq_of_lt hic]
      omega
    have hmod3 : (bc * s.size + ic) % s.size = ic := by
      rw [Nat.add_comm, Nat.add_mul_mod_self_right, Nat.mod_eq_of_lt hic]
    rw [hflat, hdiv, hmod, cellOpt, hdiv2, hmod2, hdiv3, hmod3,
      List.getElem?_eq_getElem hj1]
    simp only [Option.some_bind, List.getElem?_eq_getElem hj2]

/-! ### Characterisation of `insert_into_cell` -/

theorem pyResolve_ofNat {len j : Nat} (h : j < len) : pyResolve len (j : Int) = some j := by
  rw [pyResolve, if_pos (by omega), if_pos (by omega)]
  simp

theorem emod_ofNat (l n : Nat) : ((l : Int)).emod (n : Int) = ((l % n : Nat) : Int) := rfl

/-- Setting one cell (along resolved physical indices) preserves
well-formedness. -/
theorem wfGrid_set4 {n : Nat} {g : Grid} (hwf : wfGrid n g) {j1 j2 j3 j4 : Nat}
    {sl : List (List (List String))} {sq : List (List String)} {r : List String}
    (hsl : g[j1]? = some sl) (hsq : sl[j2]? = some sq) (hr : sq[j3]? = some r)
    (char : String) :
    wfGrid n (g.set j1 (sl.set j2 (sq.set j3 (r.set j4 char)))) := by
  obtain ⟨hlen, hmem⟩ := hwf
  constructor
  · rw [List.length_set, hlen]
  · intro sl2 hsl2
    rcases List.mem_or_eq_of_mem_set hsl2 with hin | rfl
    · exact hmem sl2 hin
    · have hslin : sl ∈ g := by
        obtain ⟨hlt, hget⟩ := List.getElem?_eq_some_iff.mp hsl
        exact hget ▸ List.getElem_mem hlt
      obtain ⟨hsll, hmem2⟩ := hmem sl hslin
      refine ⟨by rw [List.length_set, hsll], ?_⟩
      intro sq2 hsq2
      rcases List.mem_or_eq_of_mem_set hsq2 with hin2 | rfl
      · exact hmem2 sq2 hin2
      · have hsqin : sq ∈ sl := by
          obtain ⟨hlt, hget⟩ := List.getElem?_eq_some_iff.mp hsq
          exact hget ▸ List.getElem_mem hlt
        obtain ⟨hsql, hmem3⟩ := hmem2 sq hsqin
        refine ⟨by rw [List.length_set, hsql], ?_⟩
        intro r2 hr2
        rcases List.mem_or_eq_of_mem_set hr2 with hin3 | rfl
        · exact hmem3 r2 hin3
        · have hrin : r ∈ sq := by
            obtain ⟨hlt, hget⟩ := List.getElem?_eq_some_iff.mp hr
            exact hget ▸ List.getElem_mem hlt
          rw [List.length_set]
          exact hmem3 r hrin

/-- An unchecked in-range write succeeds and updates exactly the addressed
cell. -/
theorem insert_unchecked_wf {s : Sudoku} (hwf : wfGrid s.size s.sudoku) (hn : 0 < s.size)
    {c l : Nat} (hc : c < s.size ^ 2) (hl : l < s.size ^ 2) (char : String) :
    ∃ s2, insert_into_cell s char ((c : Int) + 1) ((l : Int) + 1) true = .ok s2 ∧
      s2.size = s.size ∧ s2.chars = s.chars ∧ wfGrid s.size s2.sudoku ∧
      ∀ c2 l2 : Nat,
        cellOpt s2.sudoku s.size c2 l2 =
          if c2 = c ∧ l2 = l then some char else cellOpt s.sudoku s.size c2 l2 := by
  obtain ⟨sl, sq, r, hsl, hsq, hr, hsllen, hsqlen, hrlen⟩ :=
    wfGrid_layers hwf (div_lt_of_lt_sq hl) (div_lt_of_lt_sq hc) (Nat.mod_lt l hn)
  have hleng : s.sudoku.length = s.size := hwf.1
  have hel : ((l : Int) + 1 - 1) = (l : Int) := by ring
  have hec : ((c : Int) + 1 - 1) = (c : Int) := by ring
  have hfdl : ((l : Int)).fdiv (s.size : Int) = ((l / s.size : Nat) : Int) :=
    (Int.ofNat_fdiv l s.size).symm
  have hfdc : ((c : Int)).fdiv (s.size : Int) = ((c / s.size : Nat) : Int) :=
    (Int.ofNat_fdiv c s.size).symm
  have heml := emod_ofNat l s.size
  have hemc := emod_ofNat c s.size
  set g2 : Grid := s.sudoku.set (l / s.size) (sl.set (c / s.size)
    (sq.set (l % s.size) (r.set (c % s.size) char))) with hg2
  have hrun : insert_into_cell s char ((c : Int) + 1) ((l : Int) + 1) true =
      .ok { s with sudoku := g2 } := by
    rw [insert_into_cell]
    simp only [hel, hec, hfdl, hfdc, heml, hemc]
    rw [pyResolve_ofNat (by rw [hleng]; exact div_lt_of_lt_sq hl)]
    simp only [hsl]
    rw [pyResolve_ofNat (by rw [hsllen]; exact div_lt_of_lt_sq hc)]
    simp only [hsq]
    rw [pyResolve_ofNat (by rw [hsqlen]; exact Nat.mod_lt l hn)]
    simp only [hr]
    rw [pyResolve_ofNat (by rw [hrlen]; exact Nat.mod_lt c hn)]
    rfl
  have hwf2 : wfGrid s.size g2 := wfGrid_set4 hwf hsl hsq hr char
  refine ⟨{ s with sudoku := g2 }, hrun, rfl, rfl, hwf2, ?_⟩
  intro c2 l2
  have hj1 : l / s.size < s.sudoku.length := by rw [hleng]; exact div_lt_of_lt_sq hl
  have hj2 : c / s.size < sl.length := by rw [hsllen]; exact div_lt_of_lt_sq hc
  have hj3 : l % s.size < sq.length := by rw [hsqlen]; exact Nat.mod_lt l hn
  have hj4 : c % s.size < r.length := by rw [hrlen]; exact Nat.mod_lt c hn
  by_cases hsame : c2 = c ∧ l2 = l
  · obtain ⟨rfl, rfl⟩ := hsame
    rw [if_pos ⟨rfl, rfl⟩, cellOpt, hg2]
    rw [List.getElem?_set_self (by omega)]
    simp only [Option.some_bind]
    rw [List.getElem?_set_self (by omega)]
    simp only [Option.some_bind]
    rw [List.getElem?_set_self (by omega)]
    simp only [Option.some_bind]
    rw [List.getElem?_set_self (by omega)]
  · rw [if_neg hsame, cellOpt, cellOpt, hg2]
    by_cases h1 : l2 / s.size = l / s.size
    case neg =>
      rw [List.getElem?_set_ne (fun hh => h1 hh.symm)]
    case pos =>
      rw [h1, List.getElem?_set_self (by omega), hsl]
      simp only [Option.some_bind]
      by_cases h2 : c2 / s.size = c / s.size
      case neg =>
        rw [List.getElem?_set_ne (fun hh => h2 hh.symm)]
      case pos =>
        rw [h2, List.getElem?_set_self (by omega), hsq]
        simp only [Option.some_bind]
        by_cases h3 : l2 % s.size = l % s.size
        case neg =>
          rw [List.getElem?_set_ne (fun hh => h3 hh.symm)]
        case pos =>
          rw [h3, List.getElem?_set_self (by omega), hr]
          simp only [Option.some_bind]
          have h4 : c2 % s.size ≠ c % s.size := by
            intro h4
            apply hsame
            have hceq : c2 = c := by
              have e1 := Nat.div_add_mod c2 s.size
              have e2 := Nat.div_add_mod c s.size
              rw [h2, h4] at e1
              omega
            have hleq : l2 = l := by
              have e1 := Nat.div_add_mod l2 s.size
              have e2 := Nat.div_add_mod l s.size
              rw [h1, h3] at e1
              omega
            exact ⟨hceq, hleq⟩
          rw [List.getElem?_set_ne (fun hh => h4 hh.symm)]

instance {ε α : Type} [DecidableEq ε] [DecidableEq α] : DecidableEq (Except ε α) := fun a b =>
  match a, b with
  | .error x, .error y =>
    if h : x = y then isTrue (congrArg Except.error h)
    else isFalse (fun hh => h (Except.error.inj hh))
  | .ok x, .ok y =>
    if h : x = y then isTrue (congrArg Except.ok h)
    else isFalse (fun hh => h (Except.ok.inj hh))
  | .error _, .ok _ => isFalse (fun hh => Except.noConfusion hh)
  | .ok _, .error _ => isFalse (fun hh => Except.noConfusion hh)

/-! ### Characterisation of `is_violating` -/

/-- `char` already occurs somewhere in (1-based) row `l + 1`. -/
def charInRow (s : Sudoku) (char : String) (l : Nat) : Prop :=
  ∃ c : Nat, c < s.size ^ 2 ∧ get_cell s ((c : Int) + 1) ((l : Int) + 1) = .ok char

/-- `char` already occurs somewhere in (1-based) column `c + 1`. -/
def charInColumn (s : Sudoku) (char : String) (c : Nat) : Prop :=
  ∃ l : Nat, l < s.size ^ 2 ∧ get_cell s ((c : Int) + 1) ((l : Int) + 1) = .ok char

/-- `char` already occurs somewhere in the square containing the (0-based)
cell `(c, l)`. -/
def charInSquare (s : Sudoku) (char : String) (c l : Nat) : Prop :=
  ∃ c2 : Nat, c2 < s.size ^ 2 ∧ ∃ l2 : Nat, l2 < s.size ^ 2 ∧ c2 / s.size = c / s.size ∧
    l2 / s.size = l / s.size ∧ get_cell s ((c2 : Int) + 1) ((l2 : Int) + 1) = .ok char

/-- Placing `char` on the (0-based) cell `(c, l)` conflicts with its row,
column or square. -/
def violates (s : Sudoku) (char : String) (c l : Nat) : Prop :=
  charInRow s char l ∨ charInColumn s char c ∨ charInSquare s char c l

instance (s : Sudoku) (char : String) (l : Nat) : Decidable (charInRow s char l) := by
  unfold charInRow; infer_instance

instance (s : Sudoku) (char : String) (c : Nat) : Decidable (charInColumn s char c) := by
  unfold charInColumn; infer_instance

instance (s : Sudoku) (char : String) (c l : Nat) : Decidable (charInSquare s char c l) := by
  unfold charInSquare; infer_instance

instance (s : Sudoku) (char : String) (c l : Nat) : Decidable (violates s char c l) := by
  unfold violates; infer_instance

theorem is_violating_wf {s : Sudoku} (hwf : wfGrid s.size s.sudoku) (hn : 0 < s.size)
    {char : String} (h1 : char.length = 1) (h2 : char ∈ s.chars)
    {c l : Nat} (hc : c < s.size ^ 2) (hl : l < s.size ^ 2) :
    ∃ b, is_violating s char ((c : Int) + 1) ((l : Int) + 1) = .ok b ∧
      (b = true ↔ violates s char c l) := by
  obtain ⟨L1, hL1, hL1len, hL1idx⟩ := get_line_elements_wf hwf hn hl
  obtain ⟨L2, hL2, hL2len, hL2idx⟩ := get_column_elements_wf hwf hn hc
  obtain ⟨L3, hL3, hL3len, hL3idx⟩ :=
    get_square_elements_wf hwf hn (div_lt_of_lt_sq hc) (div_lt_of_lt_sq hl)
  have hel : ((l : Int) + 1 - 1) = (l : Int) := by ring
  have hec : ((c : Int) + 1 - 1) = (c : Int) := by ring
  have hfdl : ((l : Int)).fdiv (s.size : Int) = ((l / s.size : Nat) : Int) :=
    (Int.ofNat_fdiv l s.size).symm
  have hfdc : ((c : Int)).fdiv (s.size : Int) = ((c / s.size : Nat) : Int) :=
    (Int.ofNat_fdiv c s.size).symm
  refine ⟨decide (char ∈ L1) || decide (char ∈ L2) || decide (char ∈ L3), ?_, ?_⟩
  · rw [is_violating, if_neg (by omega), if_neg (not_not_intro h2)]
    rw [hL1]
    rw [hL2]
    rw [hel, hec, hfdl, hfdc, hL3]
  · constructor
    · intro hb
      have hor : char ∈ L1 ∨ char ∈ L2 ∨ char ∈ L3 := by
        simpa [Bool.or_eq_true, decide_eq_true_iff, or_assoc] using hb
      rcases hor with hm | hm | hm
      · left
        obtain ⟨i, hi⟩ := List.mem_iff_getElem?.mp hm
        have hilt : i < s.size ^ 2 := by
          obtain ⟨hlt, _⟩ := List.getElem?_eq_some_iff.mp hi
          omega
        exact ⟨i, hilt, (get_cell_ok_iff hwf hn hilt hl).mpr (by rw [← hL1idx i, hi])⟩
      · right; left
        obtain ⟨i, hi⟩ := List.mem_iff_getElem?.mp hm
        have hilt : i < s.size ^ 2 := by
          obtain ⟨hlt, _⟩ := List.getElem?_eq_some_iff.mp hi
          omega
        exact ⟨i, hilt, (get_cell_ok_iff hwf hn hc hilt).mpr (by rw [← hL2idx i, hi])⟩
      · right; right
        obtain ⟨i, hi⟩ := List.mem_iff_getElem?.mp hm
        have hilt : i < s.size ^ 2 := by
          obtain ⟨hlt, _⟩ := List.getElem?_eq_some_iff.mp hi
          omega
        have hic : i % s.size < s.size := Nat.mod_lt i hn
        have hil : i / s.size < s.size := div_lt_of_lt_sq hilt
        have hidec : i = (i / s.size) * s.size + i % s.size := by
          have h0 := Nat.div_add_mod i s.size
          rw [Nat.mul_comm] at h0
          omega
        have hcell := hL3idx (i % s.size) (i / s.size) hic hil
        rw [← hidec] at hcell
        have hboundc : (c / s.size + 1) * s.size ≤ s.size * s.size :=
          Nat.mul_le_mul_right _ (Nat.succ_le_of_lt (div_lt_of_lt_sq hc))
        have hboundl : (l / s.size + 1) * s.size ≤ s.size * s.size :=
          Nat.mul_le_mul_right _ (Nat.succ_le_of_lt (div_lt_of_lt_sq hl))
        have hsqeq : s.size ^ 2 = s.size * s.size := by ring
        have haddc : (c / s.size + 1) * s.size = (c / s.size) * s.size + s.size := by ring
        have haddl : (l / s.size + 1) * s.size = (l / s.size) * s.size + s.size := by ring
        have hc2lt : (c / s.size) * s.size + i % s.size < s.size ^ 2 := by omega
        have hl2lt : (l / s.size) * s.size + i / s.size < s.size ^ 2 := by omega
        have hc2div : ((c / s.size) * s.size + i % s.size) / s.size = c / s.size := by
          rw [Nat.add_comm, Nat.add_mul_div_right _ _ hn, Nat.div_eq_of_lt hic]
          omega
        have hl2div : ((l / s.size) * s.size + i / s.size) / s.size = l / s.size := by
          rw [Nat.add_comm, Nat.add_mul_div_right _ _ hn, Nat.div_eq_of_lt hil]
          omega
        refine ⟨(c / s.size) * s.size + i % s.size, hc2lt,
          (l / s.size) * s.size + i / s.size, hl2lt, hc2div, hl2div,
          (get_cell_ok_iff hwf hn hc2lt hl2lt).mpr (by rw [← hcell, hi])⟩
    · intro hv
      have hor : char ∈ L1 ∨ char ∈ L2 ∨ char ∈ L3 := by
        rcases hv with ⟨c2, hc2, hcell⟩ | ⟨l2, hl2, hcell⟩ | ⟨c2, hc2, l2, hl2, hcd, hld, hcell⟩
        · left
          have := (get_cell_ok_iff hwf hn hc2 hl).mp hcell
          exact List.mem_iff_getElem?.mpr ⟨c2, by rw [hL1idx c2, this]⟩
        · right; left
          have := (get_cell_ok_iff hwf hn hc hl2).mp hcell
          exact List.mem_iff_getElem?.mpr ⟨l2, by rw [hL2idx l2, this]⟩
        · right; right
          have hcell2 := (get_cell_ok_iff hwf hn hc2 hl2).mp hcell
          have hic : c2 % s.size < s.size := Nat.mod_lt c2 hn
          have hil : l2 % s.size < s.size := Nat.mod_lt l2 hn
          have hcd2 : c2 = (c / s.size) * s.size + c2 % s.size := by
            have h0 := Nat.div_add_mod c2 s.size
            rw [Nat.mul_comm, hcd] at h0
            omega
          have hld2 : l2 = (l / s.size) * s.size + l2 % s.size := by
            have h0 := Nat.div_add_mod l2 s.size
            rw [Nat.mul_comm, hld] at h0
            omega
          have hcell3 := hL3idx (c2 % s.size) (l2 % s.size) hic hil
          rw [← hcd2, ← hld2] at hcell3
          exact List.mem_iff_getElem?.mpr ⟨l2 % s.size * s.size + c2 % s.size,
            by rw [hcell3, hcell2]⟩
      rcases hor with hm | hm | hm
      · simp [hm]
      · simp [hm]
      · simp [hm]

/-! ### The checked write path -/

theorem insert_checked_of_violating {s : Sudoku} {char : String} {column line : Int}
    (h : is_violating s char column line = .ok true) :
    insert_into_cell s char column line false = .error .illegalMove := by
  simp [insert_into_cell, h]

theorem insert_checked_of_ok {s : Sudoku} {char : String} {column line : Int}
    (h : is_violating s char column line = .ok false) :
    insert_into_cell s char column line false = insert_into_cell s char column line true := by
  simp [insert_into_cell, h]

/-! ### Negative-index arithmetic for the unchecked write path -/

theorem neg_one_fdiv (n : Nat) (hn : 0 < n) : (-1 : Int).fdiv (n : Int) = -1 := by
  rw [Int.fdiv_eq_ediv _ (by positivity)]
  have h0 : (-1 : Int) = ((n - 1 : Nat) : Int) + (-1) * (n : Int) := by
    have h1 : 1 ≤ n := hn
    push_cast [h1]
    ring
  nth_rewrite 1 [h0]
  rw [Int.add_mul_ediv_right _ _ (by omega),
    Int.ediv_eq_zero_of_lt (by omega) (by omega)]
  ring

theorem neg_one_emod (n : Nat) (hn : 0 < n) :
    (-1 : Int).emod (n : Int) = ((n - 1 : Nat) : Int) := by
  show (-1 : Int) % (n : Int) = ((n - 1 : Nat) : Int)
  have h0 : (-1 : Int) = ((n - 1 : Nat) : Int) + (-1) * (n : Int) := by
    have h1 : 1 ≤ n := hn
    push_cast [h1]
    ring
  rw [h0, Int.add_mul_emod_self]
  exact Int.emod_eq_of_lt (by omega) (by omega)

theorem pyResolve_neg_one {len : Nat} (h : 0 < len) : pyResolve len (-1) = some (len - 1) := by
  rw [pyResolve, if_neg (by omega), if_pos (by omega)]
  congr 1
  omega

/-! ### Concrete instances used by the witnesses -/

/-- A solved box-size-2 grid (in the nested representation). -/
def grid4 : Grid :=
  [[[["1", "2"], ["3", "4"]], [["3", "4"], ["1", "2"]]],
   [[["2", "1"], ["4", "3"]], [["4", "3"], ["2", "1"]]]]

/-- The `Sudoku` object holding `grid4`. -/
def sudoku4 : Sudoku := ⟨2, AVAILABLE_CHARS.take 4, grid4⟩

/-- An oracle under which the generation loop of `sudokuNew 2 [] _`
terminates (each in-range entry picks a cell candidate, the empty entries
feed the cursor-wrap steps, which consume no randomness). -/
def genOracle2 : List (List Nat) :=
  [[0], [1], [2], [3], [],
   [2], [3], [0], [1], [],
   [1], [0], [3], [2], [],
   [3], [2], [1], [0], []]

/-- C5: for a one-character symbol of the grid's alphabet and an in-range
position, `is_violating` returns `true` exactly when the symbol already
occurs in the addressed row, column or containing square; occupancy of the
target cell itself plays no role (the characterisation is a plain
membership test over the three groups). -/
theorem is_violating_spec (s : Sudoku) (char : String) (c l : Nat)
    (hwf : wfGrid s.size s.sudoku) (hn : 0 < s.size)
    (h1 : char.length = 1) (h2 : char ∈ s.chars)
    (hc : c < s.size ^ 2) (hl : l < s.size ^ 2) :
    ∃ b, is_violating s char ((c : Int) + 1) ((l : Int) + 1) = .ok b ∧
      (b = true ↔ violates s char c l) :=
  is_violating_wf hwf hn h1 h2 hc hl

theorem is_violating_spec_w :
    ∃ b, is_violating sudoku4 "1" (((0 : Nat) : Int) + 1) (((0 : Nat) : Int) + 1) = .ok b ∧
      (b = true ↔ violates sudoku4 "1" 0 0) :=
  is_violating_spec sudoku4 "1" 0 0 (by decide) (by decide) (by decide) (by decide)
    (by decide) (by decide)

/-- The empty box-size-2 grid object (used as a witness instance). -/
def emptySudoku4 : Sudoku :=
  ⟨2, AVAILABLE_CHARS.take 4,
   List.replicate 2 (List.replicate 2 (List.replicate 2 (List.replicate 2 "#")))⟩

/-- C4: with `no_check = False`, for an in-range cell and a one-character
alphabet symbol, `insert_into_cell` fails with `IllegalMove` exactly when
the symbol already occurs in the target's row, column or box (the failing
call returns no modified state, so every cell is left unchanged), and
otherwise writes the symbol into the addressed cell. -/
theorem checked_insert_spec (s : Sudoku) (char : String) (c l : Nat)
    (hwf : wfGrid s.size s.sudoku) (hn : 0 < s.size)
    (h1 : char.length = 1) (h2 : char ∈ s.chars)
    (hc : c < s.size ^ 2) (hl : l < s.size ^ 2) :
    (violates s char c l →
      insert_into_cell s char ((c : Int) + 1) ((l : Int) + 1) false = .error .illegalMove) ∧
    (¬ violates s char c l →
      ∃ s2, insert_into_cell s char ((c : Int) + 1) ((l : Int) + 1) false = .ok s2 ∧
        get_cell s2 ((c : Int) + 1) ((l : Int) + 1) = .ok char) := by
  obtain ⟨b, hb, hbiff⟩ := is_violating_wf hwf hn h1 h2 hc hl
  constructor
  · intro hv
    have hbt : b = true := hbiff.mpr hv
    subst hbt
    exact insert_checked_of_violating hb
  · intro hv
    have hbf : b = false := by
      cases b
      · rfl
      · exact absurd (hbiff.mp rfl) hv
    subst hbf
    rw [insert_checked_of_ok hb]
    obtain ⟨s2, hs2, hsize, hchars, hwf2, hcells⟩ := insert_unchecked_wf hwf hn hc hl char
    refine ⟨s2, hs2, ?_⟩
    have hwf2' : wfGrid s2.size s2.sudoku := by rw [hsize]; exact hwf2
    have hcell : cellOpt s2.sudoku s2.size c l = some char := by
      rw [hsize, hcells c l, if_pos ⟨rfl, rfl⟩]
    exact (get_cell_ok_iff hwf2' (by rw [hsize]; exact hn) (by rw [hsize]; exact hc)
      (by rw [hsize]; exact hl)).mpr hcell

theorem checked_insert_spec_w :
    (violates sudoku4 "1" 0 0 ∧
      insert_into_cell sudoku4 "1" (((0 : Nat) : Int) + 1) (((0 : Nat) : Int) + 1) false =
        .error .illegalMove) ∧
    (¬ violates emptySudoku4 "1" 0 0 ∧
      ∃ s2, insert_into_cell emptySudoku4 "1" (((0 : Nat) : Int) + 1) (((0 : Nat) : Int) + 1)
          false = .ok s2 ∧
        get_cell s2 (((0 : Nat) : Int) + 1) (((0 : Nat) : Int) + 1) = .ok "1") := by
  have hviol : violates sudoku4 "1" 0 0 := by
    left
    exact ⟨0, by decide, by decide⟩
  have hnviol : ¬ violates emptySudoku4 "1" 0 0 := by decide
  constructor
  · exact ⟨hviol, (checked_insert_spec sudoku4 "1" 0 0 (by decide) (by decide) (by decide)
      (by decide) (by decide) (by decide)).1 hviol⟩
  · exact ⟨hnviol, (checked_insert_spec emptySudoku4 "1" 0 0 (by decide) (by decide) (by decide)
      (by decide) (by decide) (by decide)).2 hnviol⟩

/-- C6: on a well-formed grid, the value of `get_cell` at an in-range
position agrees with the row list at offset `col - 1`, the column list at
offset `row - 1`, and the containing square's list at intra-square offset
`((row-1) mod size) * size + ((col-1) mod size)` (here with the 0-based
coordinates `c = col - 1`, `l = row - 1`). -/
theorem accessors_consistent (s : Sudoku) (c l : Nat) (v : String)
    (hwf : wfGrid s.size s.sudoku) (hn : 0 < s.size)
    (hc : c < s.size ^ 2) (hl : l < s.size ^ 2)
    (hv : get_cell s ((c : Int) + 1) ((l : Int) + 1) = .ok v) :
    (∃ L, get_line_elements s ((l : Int) + 1) = .ok L ∧ L[c]? = some v) ∧
    (∃ L, get_column_elements s ((c : Int) + 1) = .ok L ∧ L[l]? = some v) ∧
    (∃ L, get_square_elements s (((c / s.size : Nat) : Int) + 1)
        (((l / s.size : Nat) : Int) + 1) = .ok L ∧
      L[(l % s.size) * s.size + (c % s.size)]? = some v) := by
  have hcell : cellOpt s.sudoku s.size c l = some v := (get_cell_ok_iff hwf hn hc hl).mp hv
  refine ⟨?_, ?_, ?_⟩
  · obtain ⟨L, hL, _, hidx⟩ := get_line_elements_wf hwf hn hl
    exact ⟨L, hL, by rw [hidx c, hcell]⟩
  · obtain ⟨L, hL, _, hidx⟩ := get_column_elements_wf hwf hn hc
    exact ⟨L, hL, by rw [hidx l, hcell]⟩
  · obtain ⟨L, hL, _, hidx⟩ :=
      get_square_elements_wf hwf hn (div_lt_of_lt_sq hc) (div_lt_of_lt_sq hl)
    refine ⟨L, hL, ?_⟩
    have h1 := hidx (c % s.size) (l % s.size) (Nat.mod_lt c hn) (Nat.mod_lt l hn)
    have hcd : c / s.size * s.size + c % s.size = c := by
      have h0 := Nat.div_add_mod c s.size
      rw [Nat.mul_comm] at h0
      omega
    have hld : l / s.size * s.size + l % s.size = l := by
      have h0 := Nat.div_add_mod l s.size
      rw [Nat.mul_comm] at h0
      omega
    rw [h1, hcd, hld, hcell]

theorem accessors_consistent_w :
    get_cell sudoku4 (((2 : Nat) : Int) + 1) (((1 : Nat) : Int) + 1) = .ok "1" ∧
    (∃ L, get_line_elements sudoku4 (((1 : Nat) : Int) + 1) = .ok L ∧ L[2]? = some "1") ∧
    (∃ L, get_column_elements sudoku4 (((2 : Nat) : Int) + 1) = .ok L ∧ L[1]? = some "1") ∧
    (∃ L, get_square_elements sudoku4 (((2 / sudoku4.size : Nat) : Int) + 1)
        (((1 / sudoku4.size : Nat) : Int) + 1) = .ok L ∧
      L[(1 % sudoku4.size) * sudoku4.size + (2 % sudoku4.size)]? = some "1") :=
  ⟨by decide, accessors_consistent sudoku4 2 1 "1" (by decide) (by decide) (by decide)
    (by decide) (by decide)⟩

/-- C8 (amended): a symbol that is not exactly one character makes
`is_violating` fail with `IsNotCharacter` (the spec's NotASingleCharacter),
and a one-character symbol outside the grid's alphabet makes it fail with
`IncorrectCharacter` (the spec's InvalidCharacter); both checks run before
any row, column or box is inspected and return no modified state. -/
theorem invalid_symbol_rejected (s : Sudoku) (char : String) (column line : Int) :
    (char.length ≠ 1 → is_violating s char column line = .error (.isNotCharacter char)) ∧
    (char.length = 1 → char ∉ s.chars →
      is_violating s char column line = .error (.incorrectCharacter char)) := by
  constructor
  · intro h
    rw [is_violating, if_pos h]
  · intro h1 h2
    rw [is_violating, if_neg (by omega), if_pos h2]

theorem invalid_symbol_rejected_w :
    is_violating sudoku4 "12" 1 1 = .error (.isNotCharacter "12") ∧
    is_violating sudoku4 "5" 1 1 = .error (.incorrectCharacter "5") :=
  ⟨(invalid_symbol_rejected sudoku4 "12" 1 1).1 (by decide),
   (invalid_symbol_rejected sudoku4 "5" 1 1).2 (by decide) (by decide)⟩

/-- C8 (counterexample): a two-character symbol is rejected with
`IsNotCharacter`, not with `IncorrectCharacter` as the claim states. -/
theorem invalid_symbol_rejected_cex :
    is_violating sudoku4 "12" 2 2 = .error (.isNotCharacter "12") ∧
    ∀ t : String, is_violating sudoku4 "12" 2 2 ≠ .error (.incorrectCharacter t) := by
  refine ⟨rfl, ?_⟩
  intro t h
  rw [show is_violating sudoku4 "12" 2 2 = .error (.isNotCharacter "12") from rfl] at h
  simp at h

/-- C10: `insert_into_cell` has no bounds check of its own: at the
out-of-range coordinates `column = 0`, `line = 0` (which the accessors
reject with `RequestOutOfBounds`) the unchecked write does not fail but
silently stores the symbol in the in-range cell `(size², size²)`, via
Python's negative indexing. -/
theorem unchecked_insert_skips_bounds (s : Sudoku) (char : String)
    (hwf : wfGrid s.size s.sudoku) (hn : 0 < s.size) :
    get_cell s 0 0 = .error .requestOutOfBounds ∧
    ∃ s2, insert_into_cell s char 0 0 true = .ok s2 ∧
      get_cell s2 ((s.size ^ 2 : Nat) : Int) ((s.size ^ 2 : Nat) : Int) = .ok char := by
  constructor
  · rw [get_cell, if_neg]
    intro h
    have := h.1.1
    omega
  · obtain ⟨sl, sq, r, hsl, hsq, hr, hsllen, hsqlen, hrlen⟩ :=
      wfGrid_layers hwf (show s.size - 1 < s.size by omega)
        (show s.size - 1 < s.size by omega) (show s.size - 1 < s.size by omega)
    have h01 : (0 : Int) - 1 = -1 := by norm_num
    have hres1 : pyResolve s.sudoku.length (-1 : Int) = some (s.size - 1) := by
      rw [hwf.1]
      exact pyResolve_neg_one hn
    have hres2 : pyResolve sl.length (-1 : Int) = some (s.size - 1) := by
      rw [hsllen]
      exact pyResolve_neg_one hn
    have hres3 : pyResolve sq.length (((s.size - 1 : Nat) : Int)) = some (s.size - 1) := by
      rw [hsqlen]
      exact pyResolve_ofNat (by omega)
    have hres4 : pyResolve r.length (((s.size - 1 : Nat) : Int)) = some (s.size - 1) := by
      rw [hrlen]
      exact pyResolve_ofNat (by omega)
    set g2 : Grid := s.sudoku.set (s.size - 1) (sl.set (s.size - 1)
      (sq.set (s.size - 1) (r.set (s.size - 1) char))) with hg2
    have hrun : insert_into_cell s char 0 0 true = .ok { s with sudoku := g2 } := by
      rw [insert_into_cell]
      simp only [h01, neg_one_fdiv s.size hn, neg_one_emod s.size hn]
      rw [hres1]
      simp only [hsl]
      rw [hres2]
      simp only [hsq]
      rw [hres3]
      simp only [hr]
      rw [hres4]
      rfl
    have hwf2 : wfGrid s.size g2 := wfGrid_set4 hwf hsl hsq hr char
    have hkey : s.size ^ 2 - 1 = (s.size - 1) + (s.size - 1) * s.size := by
      have h2 : s.size ^ 2 = s.size * s.size := by ring
      have h3 : (s.size - 1) * s.size = s.size * s.size - s.size := by
        rw [Nat.sub_one_mul]
      have haa : s.size ≤ s.size * s.size := Nat.le_mul_of_pos_left _ hn
      omega
    have hd : (s.size ^ 2 - 1) / s.size = s.size - 1 := by
      rw [hkey, Nat.add_mul_div_right _ _ hn, Nat.div_eq_of_lt (by omega)]
      omega
    have hm2 : (s.size ^ 2 - 1) % s.size = s.size - 1 := by
      rw [hkey, Nat.add_mul_mod_self_right, Nat.mod_eq_of_lt (by omega)]
    have hcell : cellOpt g2 s.size (s.size ^ 2 - 1) (s.size ^ 2 - 1) = some char := by
      rw [cellOpt, hd, hm2]
      rw [List.getElem?_set_self (by rw [hwf.1]; omega)]
      simp only [Option.some_bind]
      rw [List.getElem?_set_self (by rw [hsllen]; omega)]
      simp only [Option.some_bind]
      rw [List.getElem?_set_self (by rw [hsqlen]; omega)]
      simp only [Option.some_bind]
      rw [List.getElem?_set_self (by rw [hrlen]; omega)]
    have hpos : 0 < s.size ^ 2 := by positivity
    have hco : ((s.size ^ 2 : Nat) : Int) = ((s.size ^ 2 - 1 : Nat) : Int) + 1 := by omega
    refine ⟨{ s with sudoku := g2 }, hrun, ?_⟩
    rw [hco]
    exact (@get_cell_ok_iff { s with sudoku := g2 } hwf2 hn _ _
      (by show s.size ^ 2 - 1 < s.size ^ 2; omega)
      (by show s.size ^ 2 - 1 < s.size ^ 2; omega) char).mpr hcell

theorem unchecked_insert_skips_bounds_w :
    get_cell sudoku4 0 0 = .error .requestOutOfBounds ∧
    ∃ s2, insert_into_cell sudoku4 "#" 0 0 true = .ok s2 ∧
      get_cell s2 ((sudoku4.size ^ 2 : Nat) : Int) ((sudoku4.size ^ 2 : Nat) : Int) = .ok "#" :=
  unchecked_insert_skips_bounds sudoku4 "#" (by decide) (by decide)

/-! ### Counting empty cells, for `poke` -/

/-- Number of cells holding the empty marker `"#"`. -/
def countEmpty (g : Grid) : Nat :=
  (g.map (fun sl => (sl.map (fun sq => (sq.map (fun r => r.count "#")).sum)).sum)).sum

theorem count_set_add {α : Type} [DecidableEq α] (l : List α) (i : Nat) (a b : α)
    (h : i < l.length) :
    (l.set i a).count b + [l[i]].count b = l.count b + [a].count b := by
  induction l generalizing i with
  | nil => simp at h
  | cons x T ih =>
    match i with
    | 0 => simp [List.count_cons]; omega
    | i + 1 =>
      have hi : i < T.length := by simpa using h
      have := ih i hi
      simp only [List.set_cons_succ, List.count_cons, List.getElem_cons_succ]
      simp only [List.count_cons] at this
      omega

theorem sum_map_set_add {α : Type} (L : List α) (i : Nat) (x : α) (f : α → Nat)
    (h : i < L.length) :
    ((L.set i x).map f).sum + f L[i] = (L.map f).sum + f x := by
  induction L generalizing i with
  | nil => simp at h
  | cons a T ih =>
    match i with
    | 0 => simp; omega
    | i + 1 =>
      have hi : i < T.length := by simpa using h
      have := ih i hi
      simp only [List.set_cons_succ, List.map_cons, List.sum_cons, List.getElem_cons_succ]
      omega

theorem countEmpty_set {g : Grid} {j1 j2 j3 j4 : Nat}
    {sl : List (List (List String))} {sq : List (List String)} {r : List String} {v : String}
    (hsl : g[j1]? = some sl) (hsq : sl[j2]? = some sq) (hr : sq[j3]? = some r)
    (hv : r[j4]? = some v) (hne : v ≠ "#") :
    countEmpty (g.set j1 (sl.set j2 (sq.set j3 (r.set j4 "#")))) = countEmpty g + 1 := by
  obtain ⟨hl1, he1⟩ := List.getElem?_eq_some_iff.mp hsl
  obtain ⟨hl2, he2⟩ := List.getElem?_eq_some_iff.mp hsq
  obtain ⟨hl3, he3⟩ := List.getElem?_eq_some_iff.mp hr
  obtain ⟨hl4, he4⟩ := List.getElem?_eq_some_iff.mp hv
  have hlvl3 : (r.set j4 "#").count "#" = r.count "#" + 1 := by
    have h0 := count_set_add r j4 "#" "#" hl4
    rw [he4] at h0
    have h1 : [v].count "#" = 0 := by
      simp [List.count_cons, hne]
    have h2 : ["#"].count "#" = 1 := by simp
    omega
  have hlvl2 : ((sq.set j3 (r.set j4 "#")).map (fun r0 => r0.count "#")).sum =
      (sq.map (fun r0 => r0.count "#")).sum + 1 := by
    have := sum_map_set_add sq j3 (r.set j4 "#") (fun r0 => r0.count "#") hl3
    rw [he3] at this
    omega
  have hlvl1 : ((sl.set j2 (sq.set j3 (r.set j4 "#"))).map
      (fun sq0 => (sq0.map (fun r0 => r0.count "#")).sum)).sum =
      (sl.map (fun sq0 => (sq0.map (fun r0 => r0.count "#")).sum)).sum + 1 := by
    have := sum_map_set_add sl j2 (sq.set j3 (r.set j4 "#"))
      (fun sq0 => (sq0.map (fun r0 => r0.count "#")).sum) hl2
    rw [he2] at this
    omega
  have := sum_map_set_add g j1 (sl.set j2 (sq.set j3 (r.set j4 "#")))
    (fun sl0 => (sl0.map (fun sq0 => (sq0.map (fun r0 => r0.count "#")).sum)).sum) hl1
  rw [he1] at this
  rw [countEmpty, countEmpty]
  omega

/-- Overwriting one cell either shows up as the new value or leaves a
position unchanged. -/
theorem cellOpt_set_or {g : Grid} {j1 j2 j3 j4 : Nat}
    {sl : List (List (List String))} {sq : List (List String)} {r : List String}
    (hsl : g[j1]? = some sl) (hsq : sl[j2]? = some sq) (hr : sq[j3]? = some r)
    (hj4 : j4 < r.length) (x : String) (n c l : Nat) :
    cellOpt (g.set j1 (sl.set j2 (sq.set j3 (r.set j4 x)))) n c l = some x ∨
    cellOpt (g.set j1 (sl.set j2 (sq.set j3 (r.set j4 x)))) n c l = cellOpt g n c l := by
  obtain ⟨hl1, he1⟩ := List.getElem?_eq_some_iff.mp hsl
  obtain ⟨hl2, he2⟩ := List.getElem?_eq_some_iff.mp hsq
  obtain ⟨hl3, he3⟩ := List.getElem?_eq_some_iff.mp hr
  by_cases h1 : l / n = j1
  case neg =>
    right
    rw [cellOpt, cellOpt, List.getElem?_set_ne (fun hh => h1 hh.symm)]
  case pos =>
    by_cases h2 : c / n = j2
    case neg =>
      right
      rw [cellOpt, cellOpt, h1, List.getElem?_set_self hl1, hsl]
      simp only [Option.some_bind]
      rw [List.getElem?_set_ne (fun hh => h2 hh.symm)]
    case pos =>
      by_cases h3 : l % n = j3
      case neg =>
        right
        rw [cellOpt, cellOpt, h1, List.getElem?_set_self hl1, hsl]
        simp only [Option.some_bind]
        rw [h2, List.getElem?_set_self hl2, hsq]
        simp only [Option.some_bind]
        rw [List.getElem?_set_ne (fun hh => h3 hh.symm)]
      case pos =>
        by_cases h4 : c % n = j4
        case neg =>
          right
          rw [cellOpt, cellOpt, h1, List.getElem?_set_self hl1, hsl]
          simp only [Option.some_bind]
          rw [h2, List.getElem?_set_self hl2, hsq]
          simp only [Option.some_bind]
          rw [h3, List.getElem?_set_self hl3, hr]
          simp only [Option.some_bind]
          rw [List.getElem?_set_ne (fun hh => h4 hh.symm)]
        case pos =>
          left
          rw [cellOpt, h1, List.getElem?_set_self hl1]
          simp only [Option.some_bind]
          rw [h2, List.getElem?_set_self hl2]
          simp only [Option.some_bind]
          rw [h3, List.getElem?_set_self hl3]
          simp only [Option.some_bind]
          rw [h4, List.getElem?_set_self hj4]

theorem pokeLoop_spec :
    ∀ (choices : List (Nat × Nat × Nat × Nat)) (g : Grid) (m : Nat) (g' : Grid),
      pokeLoop choices g m = .ok (some g') →
      countEmpty g' = countEmpty g + m ∧
      ∀ n c l : Nat, cellOpt g' n c l = some "#" ∨ cellOpt g' n c l = cellOpt g n c l := by
  intro choices
  induction choices with
  | nil =>
    intro g m g' h
    match m with
    | 0 =>
      cases h
      exact ⟨by omega, fun n c l => Or.inr rfl⟩
    | m + 1 => cases h
  | cons q rest ih =>
    intro g m g' h
    obtain ⟨a, b, c, d⟩ := q
    match m with
    | 0 =>
      cases h
      exact ⟨by omega, fun n c l => Or.inr rfl⟩
    | m + 1 =>
      rw [pokeLoop] at h
      cases hq1 : g[a % g.length]? with
      | none => simp only [hq1] at h; cases h
      | some sudoku_line =>
        simp only [hq1] at h
        cases hq2 : sudoku_line[b % sudoku_line.length]? with
        | none => simp only [hq2] at h; cases h
        | some sudoku_square =>
          simp only [hq2] at h
          cases hq3 : sudoku_square[c % sudoku_square.length]? with
          | none => simp only [hq3] at h; cases h
          | some square_line =>
            simp only [hq3] at h
            cases hq4 : square_line[d % square_line.length]? with
            | none => simp only [hq4] at h; cases h
            | some v =>
              simp only [hq4] at h
              by_cases hv : v ≠ "#"
              · rw [if_pos hv] at h
                set g2 : Grid := g.set (a % g.length) (sudoku_line.set
                  (b % sudoku_line.length) (sudoku_square.set (c % sudoku_square.length)
                    (square_line.set (d % square_line.length) "#"))) with hg2
                obtain ⟨hcount, hcells⟩ := ih g2 m g' h
                have hstep : countEmpty g2 = countEmpty g + 1 :=
                  countEmpty_set hq1 hq2 hq3 hq4 hv
                refine ⟨by omega, ?_⟩
                intro n c0 l0
                rcases hcells n c0 l0 with hsh | hsame
                · exact Or.inl hsh
                · rw [hsame]
                  have hj4 : d % square_line.length < square_line.length := by
                    rcases Nat.eq_zero_or_pos square_line.length with hz | hz
                    · rw [hz] at hq4
                      rw [Nat.mod_zero] at hq4
                      obtain ⟨hlt, _⟩ := List.getElem?_eq_some_iff.mp hq4
                      omega
                    · exact Nat.mod_lt d hz
                  exact cellOpt_set_or hq1 hq2 hq3 hj4 "#" n c0 l0
              · rw [if_neg hv] at h
                exact ih g (m + 1) g' h

/-- C3: poking a fully solved grid. `poke` first builds a new `Sudoku`
from a deep copy of the input's grid (a fresh heap cell), then clears
cells of the copy.  When the loop finishes, the result holds exactly
`amount` empty cells, every other cell equals the input's cell at the same
position, and the input's grid (still at its own reference) is untouched. -/
theorem poke_spec (h : Heap) (sref : SudokuRef) (g : Grid) (n amount : Nat)
    (choices : List (Nat × Nat × Nat × Nat)) (randss : List (List Nat))
    (h' : Heap) (s' : SudokuRef)
    (hg : h[sref.sudokuRef]? = some g)
    (hwf : wfGrid n g) (hn : 0 < n)
    (hsolved : countEmpty g = 0)
    (hamount : amount ≤ n ^ 4)
    (hrun : heapPoke h sref amount choices randss = .ok (some (h', s'))) :
    h'[sref.sudokuRef]? = some g ∧
    s'.sudokuRef ≠ sref.sudokuRef ∧
    ∃ g', h'[s'.sudokuRef]? = some g' ∧
      countEmpty g' = amount ∧
      ∀ c l : Nat, cellOpt g' n c l = some "#" ∨ cellOpt g' n c l = cellOpt g n c l := by
  have hglen : g.length > 0 := by
    have := hwf.1
    omega
  obtain ⟨hreflt, _⟩ := List.getElem?_eq_some_iff.mp hg
  simp only [heapPoke, hg, sudokuNew, if_pos hglen] at hrun
  cases hp : pokeLoop choices g amount with
  | error e => simp only [hp] at hrun; cases hrun
  | ok o =>
    cases o with
    | none => simp only [hp] at hrun; cases hrun
    | some poked =>
      simp only [hp] at hrun
      cases hrun
      obtain ⟨hcount, hcells⟩ := pokeLoop_spec choices g amount poked hp
      refine ⟨?_, ?_, poked, ?_, by omega, fun c l => hcells n c l⟩
      · rw [List.getElem?_set_ne (by omega), List.getElem?_append_left hreflt]
        exact hg
      · show h.length ≠ sref.sudokuRef
        omega
      · show ((h ++ [g]).set h.length poked)[h.length]? = some poked
        rw [List.getElem?_set_self (by simp)]

/-- `grid4` after poking its two top-left cells. -/
def grid4poked : Grid :=
  [[[["#", "#"], ["3", "4"]], [["3", "4"], ["1", "2"]]],
   [[["2", "1"], ["4", "3"]], [["4", "3"], ["2", "1"]]]]

theorem poke_spec_w :
    ([grid4, grid4poked] : Heap)[(0 : Nat)]? = some grid4 ∧
    (1 : Nat) ≠ (0 : Nat) ∧
    ∃ g', ([grid4, grid4poked] : Heap)[(1 : Nat)]? = some g' ∧
      countEmpty g' = 2 ∧
      ∀ c l : Nat, cellOpt g' 2 c l = some "#" ∨ cellOpt g' 2 c l = cellOpt grid4 2 c l := by
  have hrun : heapPoke [grid4] ⟨0, 2, AVAILABLE_CHARS.take 4⟩ 2 [(0, 0, 0, 0), (0, 0, 0, 1)]
      [] = .ok (some ([grid4, grid4poked], ⟨1, 2, AVAILABLE_CHARS.take 4⟩)) := by rfl
  exact poke_spec [grid4] ⟨0, 2, AVAILABLE_CHARS.take 4⟩ grid4 2 2
    [(0, 0, 0, 0), (0, 0, 0, 1)] [] [grid4, grid4poked] ⟨1, 2, AVAILABLE_CHARS.take 4⟩
    (by rfl) (by decide) (by decide) (by decide) (by decide) hrun

/-- `grid4` after writing `"#"` into cell (1,1). -/
def grid4mut : Grid :=
  [[[["#", "2"], ["3", "4"]], [["3", "4"], ["1", "2"]]],
   [[["2", "1"], ["4", "3"]], [["4", "3"], ["2", "1"]]]]

/-- C2 (counterexample): the architecture constructor stores the caller's
list itself (src/main.py line 82), so the "copy" shares storage with the
source.  Constructing from the heap cell holding `grid4` and writing `"#"`
through the new object makes the source object read `"#"` at (1,1), where
it read `"1"` before - the source's cells do not stay unchanged. -/
theorem copy_construction_shares_cex :
    heapSudokuFromArchitecture [grid4] 0 = some ⟨0, 2, AVAILABLE_CHARS.take 4⟩ ∧
    heapGetCell [grid4] ⟨0, 2, AVAILABLE_CHARS.take 4⟩ 1 1 = .ok "1" ∧
    heapInsertIntoCell [grid4] ⟨0, 2, AVAILABLE_CHARS.take 4⟩ "#" 1 1 true =
      .ok [grid4mut] ∧
    heapGetCell [grid4mut] ⟨0, 2, AVAILABLE_CHARS.take 4⟩ 1 1 = .ok "#" :=
  ⟨rfl, rfl, rfl, rfl⟩

/-- C2 (amended): constructing a `Sudoku` from an existing grid's cell
contents yields identical `size` and identical cell values, but the
constructor stores the supplied list by reference, so the two objects
share mutable storage: a write through the copy is visible through the
source.  Independence holds only when the caller passes a deep copy, as
`poke` does. -/
theorem copy_construction_spec (h : Heap) (r : Nat) (g : Grid) (n : Nat)
    (char : String) (c l : Nat)
    (hg : h[r]? = some g) (hwf : wfGrid n g) (hn : 0 < n)
    (hc : c < n ^ 2) (hl : l < n ^ 2) :
    ∃ s2, heapSudokuFromArchitecture h r = some s2 ∧
      s2.sudokuRef = r ∧ s2.size = n ∧
      heapView h s2 = some ⟨n, AVAILABLE_CHARS.take (n ^ 2), g⟩ ∧
      ∃ h', heapInsertIntoCell h s2 char ((c : Int) + 1) ((l : Int) + 1) true = .ok h' ∧
        heapGetCell h' ⟨r, n, AVAILABLE_CHARS.take (n ^ 2)⟩ ((c : Int) + 1) ((l : Int) + 1) =
          .ok char := by
  have hlen : g.length = n := hwf.1
  obtain ⟨hrlt, _⟩ := List.getElem?_eq_some_iff.mp hg
  have hglen : g.length > 0 := by omega
  have hview : heapView h ⟨r, g.length, AVAILABLE_CHARS.take (g.length ^ 2)⟩ =
      some ⟨g.length, AVAILABLE_CHARS.take (g.length ^ 2), g⟩ := by
    rw [heapView]
    simp only [hg]
    rfl
  set sv : Sudoku := ⟨g.length, AVAILABLE_CHARS.take (g.length ^ 2), g⟩ with hsv
  have hwfv : wfGrid sv.size sv.sudoku := by
    show wfGrid g.length g
    rw [hlen]
    exact hwf
  obtain ⟨s2v, hins, hsize2, hchars2, hwf2, hcells⟩ :=
    insert_unchecked_wf hwfv (by show 0 < g.length; omega)
      (show c < sv.size ^ 2 by rw [show sv.size = g.length from rfl, hlen]; exact hc)
      (show l < sv.size ^ 2 by rw [show sv.size = g.length from rfl, hlen]; exact hl) char
  refine ⟨⟨r, g.length, AVAILABLE_CHARS.take (g.length ^ 2)⟩, ?_, rfl, hlen, ?_, ?_⟩
  · rw [heapSudokuFromArchitecture]
    simp only [hg]
    rw [if_pos hglen]
  · rw [hview]
    show some sv = some (⟨n, AVAILABLE_CHARS.take (n ^ 2), g⟩ : Sudoku)
    rw [hsv, hlen]
  · refine ⟨h.set r s2v.sudoku, ?_, ?_⟩
    · rw [heapInsertIntoCell]
      simp only [hview, hins]
    · rw [heapGetCell, heapView]
      rw [List.getElem?_set_self hrlt]
      simp only [Option.map]
      have hsvsize : sv.size = n := by rw [hsv]; exact hlen
      have hcell : cellOpt s2v.sudoku n c l = some char := by
        have hthis := hcells c l
        rw [if_pos ⟨rfl, rfl⟩] at hthis
        rw [← hsvsize]
        exact hthis
      have hwf2' : wfGrid n s2v.sudoku := by
        rw [← hsvsize]
        exact hwf2
      exact (@get_cell_ok_iff ⟨n, AVAILABLE_CHARS.take (n ^ 2), s2v.sudoku⟩ hwf2' hn _ _
        hc hl char).mpr hcell

theorem copy_construction_spec_w :
    ∃ s2, heapSudokuFromArchitecture [grid4] 0 = some s2 ∧
      s2.sudokuRef = 0 ∧ s2.size = 2 ∧
      heapView [grid4] s2 = some ⟨2, AVAILABLE_CHARS.take (2 ^ 2), grid4⟩ ∧
      ∃ h', heapInsertIntoCell [grid4] s2 "#" (((0 : Nat) : Int) + 1) (((0 : Nat) : Int) + 1)
          true = .ok h' ∧
        heapGetCell h' ⟨0, 2, AVAILABLE_CHARS.take (2 ^ 2)⟩ (((0 : Nat) : Int) + 1)
          (((0 : Nat) : Int) + 1) = .ok "#" :=
  copy_construction_spec [grid4] 0 grid4 2 "#" 0 0 (by rfl) (by decide) (by decide)
    (by decide) (by decide)

/-! ### The generation invariant -/

/-- Among the filled cells, no symbol repeats within a row, a column or a
square: two distinct same-group cells holding the same value can only both
hold the empty marker. -/
def cellsDistinct (n : Nat) (g : Grid) : Prop :=
  ∀ c1 l1 c2 l2 : Nat, c1 < n ^ 2 → l1 < n ^ 2 → c2 < n ^ 2 → l2 < n ^ 2 →
    (l1 = l2 ∨ c1 = c2 ∨ (c1 / n = c2 / n ∧ l1 / n = l2 / n)) →
    ¬(c1 = c2 ∧ l1 = l2) →
    ∀ v, cellOpt g n c1 l1 = some v → cellOpt g n c2 l2 = some v → v = "#"

theorem flat_eq_iff {N2 c l c2 l2 : Nat} (hc : c < N2) (hc2 : c2 < N2) :
    l * N2 + c = l2 * N2 + c2 ↔ l = l2 ∧ c = c2 := by
  have hN2 : 0 < N2 := by omega
  constructor
  · intro h
    have h1 : (c + l * N2) / N2 = l := by
      rw [Nat.add_mul_div_right _ _ hN2, Nat.div_eq_of_lt hc]
      omega
    have h2 : (c2 + l2 * N2) / N2 = l2 := by
      rw [Nat.add_mul_div_right _ _ hN2, Nat.div_eq_of_lt hc2]
      omega
    have hl : l = l2 := by
      rw [← h1, ← h2]
      congr 1
      omega
    constructor
    · exact hl
    · rw [hl] at h
      omega
  · rintro ⟨rfl, rfl⟩
    rfl

/-- Writing a non-conflicting symbol keeps the distinctness invariant. -/
theorem cellsDistinct_insert {s : Sudoku} (hwf : wfGrid s.size s.sudoku) (hn : 0 < s.size)
    {c l : Nat} (hc : c < s.size ^ 2) (hl : l < s.size ^ 2) {char : String}
    (hnv : ¬ violates s char c l)
    (hdist : cellsDistinct s.size s.sudoku)
    {g2 : Grid}
    (hcells : ∀ c2 l2 : Nat, cellOpt g2 s.size c2 l2 =
      if c2 = c ∧ l2 = l then some char else cellOpt s.sudoku s.size c2 l2) :
    cellsDistinct s.size g2 := by
  intro c1 l1 c2 l2 hc1 hl1 hc2 hl2 hgroup hne v hv1 hv2
  rw [hcells c1 l1] at hv1
  rw [hcells c2 l2] at hv2
  by_cases he1 : c1 = c ∧ l1 = l
  · rw [if_pos he1] at hv1
    have hvchar : v = char := by cases hv1; rfl
    obtain ⟨rfl, rfl⟩ := he1
    rw [if_neg (fun hh => hne ⟨hh.1.symm, hh.2.symm⟩)] at hv2
    · exfalso
      apply hnv
      subst hvchar
      have hcellok := (get_cell_ok_iff hwf hn hc2 hl2).mpr hv2
      rcases hgroup with hrow | hcol | hbox
      · exact Or.inl ⟨c2, hc2, by rw [hrow]; exact hcellok⟩
      · exact Or.inr (Or.inl ⟨l2, hl2, by rw [hcol]; exact hcellok⟩)
      · exact Or.inr (Or.inr ⟨c2, hc2, l2, hl2, hbox.1.symm, hbox.2.symm, hcellok⟩)
  · rw [if_neg he1] at hv1
    by_cases he2 : c2 = c ∧ l2 = l
    · rw [if_pos he2] at hv2
      have hvchar : v = char := by cases hv2; rfl
      obtain ⟨rfl, rfl⟩ := he2
      exfalso
      apply hnv
      subst hvchar
      have hcellok := (get_cell_ok_iff hwf hn hc1 hl1).mpr hv1
      rcases hgroup with hrow | hcol | hbox
      · exact Or.inl ⟨c1, hc1, by rw [← hrow]; exact hcellok⟩
      · exact Or.inr (Or.inl ⟨l1, hl1, by rw [← hcol]; exact hcellok⟩)
      · exact Or.inr (Or.inr ⟨c1, hc1, l1, hl1, hbox.1, hbox.2, hcellok⟩)
    · rw [if_neg he2] at hv2
      exact hdist c1 l1 c2 l2 hc1 hl1 hc2 hl2 hgroup hne v hv1 hv2

/-- Clearing a cell to `"#"` keeps the distinctness invariant. -/
theorem cellsDistinct_clear {s : Sudoku}
    {c l : Nat}
    (hdist : cellsDistinct s.size s.sudoku)
    {g2 : Grid}
    (hcells : ∀ c2 l2 : Nat, cellOpt g2 s.size c2 l2 =
      if c2 = c ∧ l2 = l then some "#" else cellOpt s.sudoku s.size c2 l2) :
    cellsDistinct s.size g2 := by
  intro c1 l1 c2 l2 hc1 hl1 hc2 hl2 hgroup hne v hv1 hv2
  rw [hcells c1 l1] at hv1
  rw [hcells c2 l2] at hv2
  by_cases he1 : c1 = c ∧ l1 = l
  · rw [if_pos he1] at hv1
    cases hv1
    rfl
  · rw [if_neg he1] at hv1
    by_cases he2 : c2 = c ∧ l2 = l
    · rw [if_pos he2] at hv2
      cases hv2
      rfl
    · rw [if_neg he2] at hv2
      exact hdist c1 l1 c2 l2 hc1 hl1 hc2 hl2 hgroup hne v hv1 hv2

theorem get_line_elements_ok_bound {s : Sudoku} {line : Int} {L : List String}
    (h : get_line_elements s line = .ok L) :
    ∃ l : Nat, line = (l : Int) + 1 ∧ l < s.size ^ 2 := by
  rw [get_line_elements] at h
  by_cases hcond : (0 : Int) ≤ line - 1 ∧ line - 1 < ((s.size ^ 2 : Nat) : Int)
  · exact ⟨(line - 1).toNat, by omega, by omega⟩
  · rw [if_neg hcond] at h
    cases h

theorem get_column_elements_ok_bound {s : Sudoku} {column : Int} {L : List String}
    (h : get_column_elements s column = .ok L) :
    ∃ c : Nat, column = (c : Int) + 1 ∧ c < s.size ^ 2 := by
  rw [get_column_elements] at h
  by_cases hcond : (0 : Int) ≤ column - 1 ∧ column - 1 < ((s.size ^ 2 : Nat) : Int)
  · exact ⟨(column - 1).toNat, by omega, by omega⟩
  · rw [if_neg hcond] at h
    cases h

/-- A successful `is_violating` implies all its guards passed: the symbol
is a one-character member of the alphabet and the position is in range. -/
theorem is_violating_ok_inv {s : Sudoku} {char : String} {column line : Int} {b : Bool}
    (h : is_violating s char column line = .ok b) :
    char.length = 1 ∧ char ∈ s.chars ∧
    ∃ c l : Nat, column = (c : Int) + 1 ∧ line = (l : Int) + 1 ∧
      c < s.size ^ 2 ∧ l < s.size ^ 2 := by
  rw [is_violating] at h
  by_cases h1 : char.length ≠ 1
  · rw [if_pos h1] at h
    cases h
  · rw [if_neg h1] at h
    by_cases h2 : char ∉ s.chars
    · rw [if_pos h2] at h
      cases h
    · rw [if_neg h2] at h
      refine ⟨by omega, not_not.mp h2, ?_⟩
      cases hL : get_line_elements s line with
      | error e => rw [hL] at h; cases h
      | ok L =>
        rw [hL] at h
        cases hC : get_column_elements s column with
        | error e => rw [hC] at h; cases h
        | ok Lc =>
          obtain ⟨l, hl1, hl2⟩ := get_line_elements_ok_bound hL
          obtain ⟨c, hc1, hc2⟩ := get_column_elements_ok_bound hC
          exact ⟨c, l, hc1, hl1, hc2, hl2⟩

/-- The invariant of the generation loop (src/main.py lines 111-146): the
cursor variables stay linked by `i = (line-1)·size² + (column-1)`, every
cell strictly after the cursor is still empty, every cell strictly before
it is filled with an alphabet symbol, and the filled cells conflict
nowhere. -/
structure GenInv (n : Nat) (st : GenState) : Prop where
  hsize : st.sud.size = n
  hchars : st.sud.chars = AVAILABLE_CHARS.take (n ^ 2)
  hwf : wfGrid n st.sud.sudoku
  hcursor : st.i = (st.line - 1) * ((n ^ 2 : Nat) : Int) + (st.column - 1)
  hlineub : st.line ≤ ((n ^ 2 : Nat) : Int) + 1
  hlast : st.line = ((n ^ 2 : Nat) : Int) + 1 → st.column = 1
  hcol0 : 0 ≤ st.column
  hcolub : st.column ≤ ((n ^ 2 : Nat) : Int) + 1
  habove : ∀ c l : Nat, c < n ^ 2 → l < n ^ 2 → st.i < ((l * n ^ 2 + c : Nat) : Int) →
    cellOpt st.sud.sudoku n c l = some "#"
  hbelow : ∀ c l : Nat, c < n ^ 2 → l < n ^ 2 → ((l * n ^ 2 + c : Nat) : Int) < st.i →
    ∃ v, cellOpt st.sud.sudoku n c l = some v ∧ v ≠ "#" ∧ v ∈ st.sud.chars
  hdist : cellsDistinct n st.sud.sudoku

/-- At a state where the outer loop guard fails, the invariant forces the
cursor past the last cell, so the grid is completely filled. -/
theorem GenInv_terminal {n : Nat} {st : GenState} (hInv : GenInv n st)
    (hge : ¬ st.line < ((n ^ 2 : Nat) : Int) + 1) :
    st.sud.size = n ∧ st.sud.chars = AVAILABLE_CHARS.take (n ^ 2) ∧
    wfGrid n st.sud.sudoku ∧
    (∀ c l : Nat, c < n ^ 2 → l < n ^ 2 →
      ∃ v, cellOpt st.sud.sudoku n c l = some v ∧ v ≠ "#" ∧ v ∈ st.sud.chars) ∧
    cellsDistinct n st.sud.sudoku := by
  obtain ⟨hsize, hchars, hwf, hcursor, hlineub, hlast, hcol0, hcolub, habove, hbelow, hdist⟩ :=
    hInv
  have hline : st.line = ((n ^ 2 : Nat) : Int) + 1 := by omega
  have hcol : st.column = 1 := hlast hline
  have hi : st.i = ((n ^ 2 * n ^ 2 : Nat) : Int) := by
    rw [hcursor, hline, hcol]
    push_cast
    ring
  refine ⟨hsize, hchars, hwf, ?_, hdist⟩
  intro c l hc hl
  apply hbelow c l hc hl
  rw [hi]
  have hflat : l * n ^ 2 + c < n ^ 2 * n ^ 2 := by
    have h1 : l * n ^ 2 + c < (l + 1) * n ^ 2 := by
      have hs : (l + 1) * n ^ 2 = l * n ^ 2 + n ^ 2 := by ring
      omega
    have h2 : (l + 1) * n ^ 2 ≤ n ^ 2 * n ^ 2 :=
      Nat.mul_le_mul_right _ (by omega)
    omega
  exact_mod_cast hflat

/-- Invariant preservation for the commit branch of the loop body
(src/main.py lines 135-139): a validated symbol is written at the cursor
and the cursor advances. -/
theorem GenInv_commit {n : Nat} {st : GenState} (hInv : GenInv n st)
    (tr : List (List String)) {c l : Nat}
    (hcol : st.column = (c : Int) + 1) (hline : st.line = (l : Int) + 1)
    (hc : c < n ^ 2) (hl : l < n ^ 2)
    (hlinelt : st.line < ((n ^ 2 : Nat) : Int) + 1)
    {pick : String} (hpmem : pick ∈ st.sud.chars)
    (hnv : ¬ violates st.sud pick c l)
    {sud2 : Sudoku} (hsize2 : sud2.size = st.sud.size) (hchars2 : sud2.chars = st.sud.chars)
    (hwf2 : wfGrid n sud2.sudoku)
    (hcells : ∀ c2 l2 : Nat, cellOpt sud2.sudoku n c2 l2 =
      if c2 = c ∧ l2 = l then some pick else cellOpt st.sud.sudoku n c2 l2) :
    GenInv n ⟨sud2, tr, st.line, st.column + 1, st.i + 1⟩ := by
  have hsz := hInv.hsize
  subst hsz
  have hpick_ne : pick ≠ "#" := by
    intro hph
    rw [hph, hInv.hchars] at hpmem
    exact hash_not_mem_take _ hpmem
  have hiflat : st.i = ((l * st.sud.size ^ 2 + c : Nat) : Int) := by
    rw [hInv.hcursor, hcol, hline]
    push_cast
    ring
  refine ⟨hsize2, hchars2.trans hInv.hchars, hwf2, ?_, hInv.hlineub, ?_, ?_, ?_, ?_, ?_, ?_⟩
  · show st.i + 1 = (st.line - 1) * ((st.sud.size ^ 2 : Nat) : Int) + (st.column + 1 - 1)
    have := hInv.hcursor
    omega
  · intro hline1
    exfalso
    have hline2 : st.line = ((st.sud.size ^ 2 : Nat) : Int) + 1 := hline1
    omega
  · show (0 : Int) ≤ st.column + 1
    have := hInv.hcol0
    omega
  · show st.column + 1 ≤ ((st.sud.size ^ 2 : Nat) : Int) + 1
    rw [hcol]
    have : (c : Int) < ((st.sud.size ^ 2 : Nat) : Int) := by exact_mod_cast hc
    omega
  · intro c2 l2 hc2 hl2 hgt
    have hgt2 : st.i + 1 < ((l2 * st.sud.size ^ 2 + c2 : Nat) : Int) := hgt
    show cellOpt sud2.sudoku st.sud.size c2 l2 = some "#"
    rw [hcells c2 l2, if_neg]
    · apply hInv.habove c2 l2 hc2 hl2
      omega
    · rintro ⟨rfl, rfl⟩
      rw [hiflat] at hgt2
      omega
  · intro c2 l2 hc2 hl2 hlt
    have hlt2 : ((l2 * st.sud.size ^ 2 + c2 : Nat) : Int) < st.i + 1 := hlt
    show ∃ v, cellOpt sud2.sudoku st.sud.size c2 l2 = some v ∧ v ≠ "#" ∧ v ∈ sud2.chars
    by_cases heq : ((l2 * st.sud.size ^ 2 + c2 : Nat) : Int) = st.i
    · have hnat : l2 * st.sud.size ^ 2 + c2 = l * st.sud.size ^ 2 + c := by
        rw [hiflat] at heq
        exact_mod_cast heq
      obtain ⟨hl2l, hc2c⟩ := (flat_eq_iff hc2 hc).mp hnat
      subst hl2l
      subst hc2c
      refine ⟨pick, ?_, hpick_ne, by rw [hchars2]; exact hpmem⟩
      rw [hcells c2 l2, if_pos ⟨rfl, rfl⟩]
    · have hltold : ((l2 * st.sud.size ^ 2 + c2 : Nat) : Int) < st.i := by omega
      obtain ⟨v, hv, hvne, hvmem⟩ := hInv.hbelow c2 l2 hc2 hl2 hltold
      refine ⟨v, ?_, hvne, by rw [hchars2]; exact hvmem⟩
      rw [hcells c2 l2, if_neg]
      · exact hv
      · rintro ⟨rfl, rfl⟩
        rw [hiflat] at hltold
        omega
  · show cellsDistinct st.sud.size sud2.sudoku
    exact cellsDistinct_insert hInv.hwf (by
      have h0 := hc
      by_contra hz
      push_neg at hz
      interval_cases st.sud.size
      simp at hc) hc hl hnv hInv.hdist hcells

/-- Invariant preservation for the backtrack branch of the loop body
(src/main.py lines 128-134): the cursor cell is cleared and the cursor
steps back. -/
theorem GenInv_backtrack {n : Nat} {st : GenState} (hInv : GenInv n st)
    (tr : List (List String)) {c l : Nat}
    (hcol : st.column = (c : Int) + 1) (hline : st.line = (l : Int) + 1)
    (hc : c < n ^ 2) (hl : l < n ^ 2)
    (hlinelt : st.line < ((n ^ 2 : Nat) : Int) + 1)
    {sud2 : Sudoku} (hsize2 : sud2.size = st.sud.size) (hchars2 : sud2.chars = st.sud.chars)
    (hwf2 : wfGrid n sud2.sudoku)
    (hcells : ∀ c2 l2 : Nat, cellOpt sud2.sudoku n c2 l2 =
      if c2 = c ∧ l2 = l then some "#" else cellOpt st.sud.sudoku n c2 l2) :
    GenInv n ⟨sud2, tr, st.line, st.column - 1, st.i - 1⟩ := by
  have hsz := hInv.hsize
  subst hsz
  have hiflat : st.i = ((l * st.sud.size ^ 2 + c : Nat) : Int) := by
    rw [hInv.hcursor, hcol, hline]
    push_cast
    ring
  refine ⟨hsize2, hchars2.trans hInv.hchars, hwf2, ?_, hInv.hlineub, ?_, ?_, ?_, ?_, ?_, ?_⟩
  · show st.i - 1 = (st.line - 1) * ((st.sud.size ^ 2 : Nat) : Int) + (st.column - 1 - 1)
    have := hInv.hcursor
    omega
  · intro hline1
    exfalso
    have hline2 : st.line = ((st.sud.size ^ 2 : Nat) : Int) + 1 := hline1
    omega
  · show (0 : Int) ≤ st.column - 1
    rw [hcol]
    omega
  · show st.column - 1 ≤ ((st.sud.size ^ 2 : Nat) : Int) + 1
    have := hInv.hcolub
    omega
  · intro c2 l2 hc2 hl2 hgt
    have hgt2 : st.i - 1 < ((l2 * st.sud.size ^ 2 + c2 : Nat) : Int) := hgt
    show cellOpt sud2.sudoku st.sud.size c2 l2 = some "#"
    by_cases heq : c2 = c ∧ l2 = l
    · rw [hcells c2 l2, if_pos heq]
    · rw [hcells c2 l2, if_neg heq]
      apply hInv.habove c2 l2 hc2 hl2
      by_cases hflat : ((l2 * st.sud.size ^ 2 + c2 : Nat) : Int) = st.i
      · exfalso
        have hnat : l2 * st.sud.size ^ 2 + c2 = l * st.sud.size ^ 2 + c := by
          rw [hiflat] at hflat
          exact_mod_cast hflat
        obtain ⟨h1, h2⟩ := (flat_eq_iff hc2 hc).mp hnat
        exact heq ⟨h2, h1⟩
      · omega
  · intro c2 l2 hc2 hl2 hlt
    have hlt2 : ((l2 * st.sud.size ^ 2 + c2 : Nat) : Int) < st.i - 1 := hlt
    show ∃ v, cellOpt sud2.sudoku st.sud.size c2 l2 = some v ∧ v ≠ "#" ∧ v ∈ sud2.chars
    have hltold : ((l2 * st.sud.size ^ 2 + c2 : Nat) : Int) < st.i := by omega
    obtain ⟨v, hv, hvne, hvmem⟩ := hInv.hbelow c2 l2 hc2 hl2 hltold
    refine ⟨v, ?_, hvne, by rw [hchars2]; exact hvmem⟩
    rw [hcells c2 l2, if_neg]
    · exact hv
    · rintro ⟨rfl, rfl⟩
      rw [hiflat] at hltold
      omega
  · show cellsDistinct st.sud.size sud2.sudoku
    exact cellsDistinct_clear hInv.hdist hcells

/-- Invariant preservation for the cursor wrap when the inner guard fails
with `column > 0` (src/main.py lines 141-143). -/
theorem GenInv_wrap_pos {n : Nat} {st : GenState} (hInv : GenInv n st)
    (hout : st.line < ((n ^ 2 : Nat) : Int) + 1)
    (hnin : ¬(0 < st.column ∧ st.column < ((n ^ 2 : Nat) : Int) + 1))
    (hpos : 0 < st.column) :
    GenInv n { st with line := st.line + 1, column := 1 } := by
  have hcolval : st.column = ((n ^ 2 : Nat) : Int) + 1 := by
    have h1 := hInv.hcolub
    omega
  refine ⟨hInv.hsize, hInv.hchars, hInv.hwf, ?_, ?_, ?_, ?_, ?_, ?_, ?_, hInv.hdist⟩
  · show st.i = (st.line + 1 - 1) * ((n ^ 2 : Nat) : Int) + (1 - 1)
    rw [hInv.hcursor, hcolval]
    ring
  · show st.line + 1 ≤ ((n ^ 2 : Nat) : Int) + 1
    omega
  · intro _
    rfl
  · show (0 : Int) ≤ 1
    omega
  · show (1 : Int) ≤ ((n ^ 2 : Nat) : Int) + 1
    have : (0 : Int) ≤ ((n ^ 2 : Nat) : Int) := by positivity
    omega
  · intro c2 l2 hc2 hl2 hgt
    exact hInv.habove c2 l2 hc2 hl2 hgt
  · intro c2 l2 hc2 hl2 hlt
    exact hInv.hbelow c2 l2 hc2 hl2 hlt

/-- Invariant preservation for the cursor wrap when the inner guard fails
with `column ≤ 0` (src/main.py lines 144-146). -/
theorem GenInv_wrap_neg {n : Nat} {st : GenState} (hInv : GenInv n st)
    (hout : st.line < ((n ^ 2 : Nat) : Int) + 1)
    (hneg : ¬ 0 < st.column) :
    GenInv n { st with line := st.line - 1, column := ((n ^ 2 : Nat) : Int) } := by
  have hcolval : st.column = 0 := by
    have h1 := hInv.hcol0
    omega
  refine ⟨hInv.hsize, hInv.hchars, hInv.hwf, ?_, ?_, ?_, ?_, ?_, ?_, ?_, hInv.hdist⟩
  · show st.i = (st.line - 1 - 1) * ((n ^ 2 : Nat) : Int) + (((n ^ 2 : Nat) : Int) - 1)
    rw [hInv.hcursor, hcolval]
    ring
  · show st.line - 1 ≤ ((n ^ 2 : Nat) : Int) + 1
    have := hInv.hlineub
    omega
  · intro hline1
    exfalso
    have hline2 : st.line - 1 = ((n ^ 2 : Nat) : Int) + 1 := hline1
    have := hInv.hlineub
    omega
  · show (0 : Int) ≤ ((n ^ 2 : Nat) : Int)
    positivity
  · show ((n ^ 2 : Nat) : Int) ≤ ((n ^ 2 : Nat) : Int) + 1
    omega
  · intro c2 l2 hc2 hl2 hgt
    exact hInv.habove c2 l2 hc2 hl2 hgt
  · intro c2 l2 hc2 hl2 hlt
    exact hInv.hbelow c2 l2 hc2 hl2 hlt

/-- The invariant holds at the loop's initial state (empty grid, cursor at
the first cell). -/
theorem GenInv_init (n : Nat) (hn : 0 < n) :
    GenInv n
      { sud := { size := n, chars := AVAILABLE_CHARS.take (n ^ 2),
                 sudoku := List.replicate n (List.replicate n
                   (List.replicate n (List.replicate n "#"))) },
        treshold := List.replicate (n ^ 4) (AVAILABLE_CHARS.take (n ^ 2)),
        line := 1, column := 1, i := 0 } := by
  have hwf0 : wfGrid n (List.replicate n (List.replicate n
      (List.replicate n (List.replicate n ("#" : String))))) := by
    refine ⟨by simp, ?_⟩
    intro sl hsl
    rw [List.eq_of_mem_replicate hsl]
    refine ⟨by simp, ?_⟩
    intro sq hsq
    rw [List.eq_of_mem_replicate hsq]
    refine ⟨by simp, ?_⟩
    intro r hr
    rw [List.eq_of_mem_replicate hr]
    simp
  have hcell0 : ∀ c l : Nat, c < n ^ 2 → l < n ^ 2 →
      cellOpt (List.replicate n (List.replicate n
        (List.replicate n (List.replicate n ("#" : String))))) n c l = some "#" := by
    intro c l hc hl
    rw [cellOpt]
    rw [List.getElem?_replicate_of_lt (div_lt_of_lt_sq hl)]
    simp only [Option.some_bind]
    rw [List.getElem?_replicate_of_lt (div_lt_of_lt_sq hc)]
    simp only [Option.some_bind]
    rw [List.getElem?_replicate_of_lt (Nat.mod_lt l hn)]
    simp only [Option.some_bind]
    rw [List.getElem?_replicate_of_lt (Nat.mod_lt c hn)]
  refine ⟨rfl, rfl, hwf0, by norm_num, ?_, fun _ => rfl, by norm_num, ?_, ?_, ?_, ?_⟩
  · show (1 : Int) ≤ ((n ^ 2 : Nat) : Int) + 1
    have : (0 : Int) ≤ ((n ^ 2 : Nat) : Int) := by positivity
    omega
  · show (1 : Int) ≤ ((n ^ 2 : Nat) : Int) + 1
    have : (0 : Int) ≤ ((n ^ 2 : Nat) : Int) := by positivity
    omega
  · intro c l hc hl _
    exact hcell0 c l hc hl
  · intro c l hc hl hlt
    exfalso
    have h0 : (0 : Int) ≤ ((l * n ^ 2 + c : Nat) : Int) := by positivity
    have h1 : ((l * n ^ 2 + c : Nat) : Int) < (0 : Int) := hlt
    omega
  · intro c1 l1 c2 l2 hc1 hl1 hc2 hl2 _ _ v hv1 _
    rw [hcell0 c1 l1 hc1 hl1] at hv1
    cases hv1
    rfl

/-- A completely filled grid whose filled cells never conflict has every
row, column and square a permutation of the alphabet. -/
theorem full_grid_valid {s : Sudoku} (hwf : wfGrid s.size s.sudoku) (hn : 0 < s.size)
    (hn7 : s.size ≤ 7)
    (hchars : s.chars = AVAILABLE_CHARS.take (s.size ^ 2))
    (hfilled : ∀ c l : Nat, c < s.size ^ 2 → l < s.size ^ 2 →
      ∃ v, cellOpt s.sudoku s.size c l = some v ∧ v ≠ "#" ∧ v ∈ s.chars)
    (hdist : cellsDistinct s.size s.sudoku) :
    (∀ c l : Nat, c < s.size ^ 2 → l < s.size ^ 2 →
      ∃ v, get_cell s ((c : Int) + 1) ((l : Int) + 1) = .ok v ∧ v ≠ "#") ∧
    (∀ l : Nat, l < s.size ^ 2 →
      ∃ L, get_line_elements s ((l : Int) + 1) = .ok L ∧ L.Perm s.chars) ∧
    (∀ c : Nat, c < s.size ^ 2 →
      ∃ L, get_column_elements s ((c : Int) + 1) = .ok L ∧ L.Perm s.chars) ∧
    (∀ bc bl : Nat, bc < s.size → bl < s.size →
      ∃ L, get_square_elements s ((bc : Int) + 1) ((bl : Int) + 1) = .ok L ∧
        L.Perm s.chars) := by
  have hcharlen : s.chars.length = s.size ^ 2 := by
    rw [hchars]
    exact take_chars_length (by
      have h49 : s.size ^ 2 ≤ 7 ^ 2 := Nat.pow_le_pow_left hn7 2
      omega)
  have hcharnodup : s.chars.Nodup := by
    rw [hchars]
    exact take_chars_nodup _
  -- build a permutation from a list of length size² with distinct entries
  -- drawn from the alphabet
  have hperm : ∀ L : List String, L.length = s.size ^ 2 → L.Nodup →
      (∀ x ∈ L, x ∈ s.chars) → L.Perm s.chars := by
    intro L hLlen hLnodup hLsub
    have hsub := List.subperm_of_subset hLnodup hLsub
    exact hsub.perm_of_length_le (by omega)
  refine ⟨?_, ?_, ?_, ?_⟩
  · intro c l hc hl
    obtain ⟨v, hv, hvne, _⟩ := hfilled c l hc hl
    exact ⟨v, (get_cell_ok_iff hwf hn hc hl).mpr hv, hvne⟩
  · intro l hl
    obtain ⟨L, hL, hLlen, hidx⟩ := get_line_elements_wf hwf hn hl
    refine ⟨L, hL, hperm L hLlen ?_ ?_⟩
    · rw [List.nodup_iff_get?_ne_get?]
      intro i j hij hjlen hcontra
      rw [List.get?_eq_getElem?, List.get?_eq_getElem?] at hcontra
      have hjlt : j < s.size ^ 2 := by omega
      have hilt : i < s.size ^ 2 := by omega
      obtain ⟨vi, hvi, hvine, _⟩ := hfilled i l hilt hl
      obtain ⟨vj, hvj, _, _⟩ := hfilled j l hjlt hl
      rw [hidx i, hidx j, hvi, hvj] at hcontra
      have hveq : vi = vj := by
        cases hcontra
        rfl
      apply hvine
      exact hdist i l j l hilt hl hjlt hl (Or.inl rfl) (by omega) vi hvi (hveq ▸ hvj)
    · intro x hx
      obtain ⟨i, hi⟩ := List.mem_iff_getElem?.mp hx
      have hilt : i < s.size ^ 2 := by
        obtain ⟨hlt, _⟩ := List.getElem?_eq_some_iff.mp hi
        omega
      obtain ⟨v, hv, _, hvmem⟩ := hfilled i l hilt hl
      rw [hidx i, hv] at hi
      cases hi
      exact hvmem
  · intro c hc
    obtain ⟨L, hL, hLlen, hidx⟩ := get_column_elements_wf hwf hn hc
    refine ⟨L, hL, hperm L hLlen ?_ ?_⟩
    · rw [List.nodup_iff_get?_ne_get?]
      intro i j hij hjlen hcontra
      rw [List.get?_eq_getElem?, List.get?_eq_getElem?] at hcontra
      have hjlt : j < s.size ^ 2 := by omega
      have hilt : i < s.size ^ 2 := by omega
      obtain ⟨vi, hvi, hvine, _⟩ := hfilled c i hc hilt
      obtain ⟨vj, hvj, _, _⟩ := hfilled c j hc hjlt
      rw [hidx i, hidx j, hvi, hvj] at hcontra
      have hveq : vi = vj := by
        cases hcontra
        rfl
      apply hvine
      exact hdist c i c j hc hilt hc hjlt (Or.inr (Or.inl rfl)) (by omega) vi hvi
        (hveq ▸ hvj)
    · intro x hx
      obtain ⟨i, hi⟩ := List.mem_iff_getElem?.mp hx
      have hilt : i < s.size ^ 2 := by
        obtain ⟨hlt, _⟩ := List.getElem?_eq_some_iff.mp hi
        omega
      obtain ⟨v, hv, _, hvmem⟩ := hfilled c i hc hilt
      rw [hidx i, hv] at hi
      cases hi
      exact hvmem
  · intro bc bl hbc hbl
    obtain ⟨L, hL, hLlen, hidx⟩ := get_square_elements_wf hwf hn hbc hbl
    have hcoord : ∀ i : Nat, i < s.size ^ 2 →
        bc * s.size + i % s.size < s.size ^ 2 ∧ bl * s.size + i / s.size < s.size ^ 2 ∧
        (bc * s.size + i % s.size) / s.size = bc ∧
        (bl * s.size + i / s.size) / s.size = bl ∧
        L[i]? = cellOpt s.sudoku s.size (bc * s.size + i % s.size)
          (bl * s.size + i / s.size) := by
      intro i hi
      have hic : i % s.size < s.size := Nat.mod_lt i hn
      have hil : i / s.size < s.size := div_lt_of_lt_sq hi
      have hsq2 : s.size ^ 2 = s.size * s.size := by ring
      have hbound1 : bc * s.size + i % s.size < s.size ^ 2 := by
        have h1 : (bc + 1) * s.size ≤ s.size * s.size :=
          Nat.mul_le_mul_right _ (by omega)
        have h2 : (bc + 1) * s.size = bc * s.size + s.size := by ring
        omega
      have hbound2 : bl * s.size + i / s.size < s.size ^ 2 := by
        have h1 : (bl + 1) * s.size ≤ s.size * s.size :=
          Nat.mul_le_mul_right _ (by omega)
        have h2 : (bl + 1) * s.size = bl * s.size + s.size := by ring
        omega
      have hdiv1 : (bc * s.size + i % s.size) / s.size = bc := by
        rw [Nat.add_comm, Nat.add_mul_div_right _ _ hn, Nat.div_eq_of_lt hic]
        omega
      have hdiv2 : (bl * s.size + i / s.size) / s.size = bl := by
        rw [Nat.add_comm, Nat.add_mul_div_right _ _ hn, Nat.div_eq_of_lt hil]
        omega
      have hdeci : i = i / s.size * s.size + i % s.size := by
        have h0 := Nat.div_add_mod i s.size
        rw [Nat.mul_comm] at h0
        omega
      refine ⟨hbound1, hbound2, hdiv1, hdiv2, ?_⟩
      have := hidx (i % s.size) (i / s.size) hic hil
      rw [← hdeci] at this
      exact this
    refine ⟨L, hL, hperm L hLlen ?_ ?_⟩
    · rw [List.nodup_iff_get?_ne_get?]
      intro i j hij hjlen hcontra
      rw [List.get?_eq_getElem?, List.get?_eq_getElem?] at hcontra
      have hjlt : j < s.size ^ 2 := by omega
      have hilt : i < s.size ^ 2 := by omega
      obtain ⟨hbi1, hbi2, hbi3, hbi4, hbi5⟩ := hcoord i hilt
      obtain ⟨hbj1, hbj2, hbj3, hbj4, hbj5⟩ := hcoord j hjlt
      obtain ⟨vi, hvi, hvine, _⟩ := hfilled _ _ hbi1 hbi2
      obtain ⟨vj, hvj, _, _⟩ := hfilled _ _ hbj1 hbj2
      rw [hbi5, hbj5, hvi, hvj] at hcontra
      have hveq : vi = vj := by
        cases hcontra
        rfl
      apply hvine
      refine hdist _ _ _ _ hbi1 hbi2 hbj1 hbj2 (Or.inr (Or.inr ⟨by omega, by omega⟩))
        ?_ vi hvi (hveq ▸ hvj)
      rintro ⟨hceq, hleq⟩
      apply Nat.ne_of_lt hij
      have h1 : i % s.size = j % s.size := by omega
      have h2 : i / s.size = j / s.size := by omega
      have hdeci : i = i / s.size * s.size + i % s.size := by
        have h0 := Nat.div_add_mod i s.size
        rw [Nat.mul_comm] at h0
        omega
      have hdecj : j = j / s.size * s.size + j % s.size := by
        have h0 := Nat.div_add_mod j s.size
        rw [Nat.mul_comm] at h0
        omega
      rw [h1, h2] at hdeci
      omega
    · intro x hx
      obtain ⟨i, hi⟩ := List.mem_iff_getElem?.mp hx
      have hilt : i < s.size ^ 2 := by
        obtain ⟨hlt, _⟩ := List.getElem?_eq_some_iff.mp hi
        omega
      obtain ⟨hbi1, hbi2, _, _, hbi5⟩ := hcoord i hilt
      obtain ⟨v, hv, _, hvmem⟩ := hfilled _ _ hbi1 hbi2
      rw [hbi5, hv] at hi
      cases hi
      exact hvmem

/-- Soundness of the generation loop: whenever it terminates it produces a
completely filled, conflict-free grid over the fixed alphabet. -/
theorem genLoop_sound (n : Nat) (hn : 0 < n) :
    ∀ (randss : List (List Nat)) (st : GenState), GenInv n st →
      ∀ s', genLoop randss st = .ok (some s') →
      s'.size = n ∧ s'.chars = AVAILABLE_CHARS.take (n ^ 2) ∧ wfGrid n s'.sudoku ∧
      (∀ c l : Nat, c < n ^ 2 → l < n ^ 2 →
        ∃ v, cellOpt s'.sudoku n c l = some v ∧ v ≠ "#" ∧ v ∈ s'.chars) ∧
      cellsDistinct n s'.sudoku := by
  intro randss
  induction randss with
  | nil =>
    intro st hInv s' h
    have hsz := hInv.hsize
    rw [genLoop, hsz] at h
    by_cases hout : st.line < ((n ^ 2 : Nat) : Int) + 1
    · rw [if_pos hout] at h
      cases h
    · rw [if_neg hout] at h
      cases h
      exact GenInv_terminal hInv hout
  | cons rands rest ih =>
    intro st hInv s' h
    have hsz := hInv.hsize
    rw [genLoop, hsz] at h
    by_cases hout : st.line < ((n ^ 2 : Nat) : Int) + 1
    case neg =>
      rw [if_neg hout] at h
      cases h
      exact GenInv_terminal hInv hout
    case pos =>
      rw [if_pos hout] at h
      by_cases hin : 0 < st.column ∧ st.column < ((n ^ 2 : Nat) : Int) + 1
      case neg =>
        rw [if_neg hin] at h
        by_cases hpos : 0 < st.column
        · rw [if_pos hpos] at h
          exact ih _ (GenInv_wrap_pos hInv hout hin hpos) s' h
        · rw [if_neg hpos] at h
          exact ih _ (GenInv_wrap_neg hInv hout hpos) s' h
      case pos =>
        rw [if_pos hin] at h
        have hwfS : wfGrid st.sud.size st.sud.sudoku := by
          rw [hsz]
          exact hInv.hwf
        have hnpos : 0 < st.sud.size := by
          rw [hsz]
          exact hn
        cases hq1 : pyGet st.treshold st.i with
        | none => simp only [hq1] at h; cases h
        | some pool =>
          simp only [hq1] at h
          cases hq2 : pickLoop st.sud st.column st.line rands pool none with
          | error e => simp only [hq2] at h; cases h
          | ok o =>
            cases o with
            | none => simp only [hq2] at h; cases h
            | some pr =>
              obtain ⟨pick, pool2⟩ := pr
              simp only [hq2] at h
              cases hq3 : pySet st.treshold st.i pool2 with
              | none => simp only [hq3] at h; cases h
              | some tr1 =>
                simp only [hq3] at h
                cases hq4 : is_violating st.sud pick st.column st.line with
                | error e => simp only [hq4] at h; cases h
                | ok v =>
                  simp only [hq4] at h
                  obtain ⟨hp1, hp2, c, l, hcol, hline, hc, hl⟩ := is_violating_ok_inv hq4
                  have hcN : c < n ^ 2 := by rw [← hsz]; exact hc
                  have hlN : l < n ^ 2 := by rw [← hsz]; exact hl
                  cases v with
                  | true =>
                    obtain ⟨sud2, hins, hs2, hch2, hwf2, hcells⟩ :=
                      insert_unchecked_wf hwfS hnpos hc hl "#"
                    have hwf2N : wfGrid n sud2.sudoku := by
                      rw [← hsz]
                      exact hwf2
                    have hcellsN : ∀ c2 l2 : Nat, cellOpt sud2.sudoku n c2 l2 =
                        if c2 = c ∧ l2 = l then some "#"
                        else cellOpt st.sud.sudoku n c2 l2 := by
                      rw [← hsz]
                      exact hcells
                    rw [← hcol, ← hline] at hins
                    simp only [hins] at h
                    cases hq5 : pySet tr1 st.i st.sud.chars with
                    | none => simp only [hq5] at h; cases h
                    | some tr2 =>
                      simp only [hq5] at h
                      exact ih _ (GenInv_backtrack hInv tr2 hcol hline hcN hlN hout
                        hs2 hch2 hwf2N hcellsN) s' h
                  | false =>
                    obtain ⟨b, hb, hbiff⟩ := is_violating_wf hwfS hnpos hp1 hp2 hc hl
                    rw [hcol, hline] at hq4
                    have hbf : b = false := by
                      rw [hb] at hq4
                      cases hq4
                      rfl
                    have hnv : ¬ violates st.sud pick c l := by
                      intro hv
                      rw [hbiff.mpr hv] at hbf
                      cases hbf
                    obtain ⟨sud2, hins, hs2, hch2, hwf2, hcells⟩ :=
                      insert_unchecked_wf hwfS hnpos hc hl pick
                    have hwf2N : wfGrid n sud2.sudoku := by
                      rw [← hsz]
                      exact hwf2
                    have hcellsN : ∀ c2 l2 : Nat, cellOpt sud2.sudoku n c2 l2 =
                        if c2 = c ∧ l2 = l then some pick
                        else cellOpt st.sud.sudoku n c2 l2 := by
                      rw [← hsz]
                      exact hcells
                    rw [← hcol, ← hline] at hins
                    simp only [hins] at h
                    exact ih _ (GenInv_commit hInv tr1 hcol hline hcN hlN hout hp2 hnv
                      hs2 hch2 hwf2N hcellsN) s' h

/-- C1: for every box-size in [2,7], whenever the constructor's generation
loop terminates, the produced grid is fully filled (no cell holds `"#"`)
and every row, every column and every square is a permutation of the
grid's alphabet (the first `size²` entries of `AVAILABLE_CHARS`). -/
theorem generated_sudoku_valid (size : Int) (randss : List (List Nat)) (s' : Sudoku)
    (h2 : 2 ≤ size) (h7 : size ≤ 7)
    (hgen : sudokuNew size [] randss = .ok (some s')) :
    s'.size = size.toNat ∧ s'.chars = AVAILABLE_CHARS.take (s'.size ^ 2) ∧
    (∀ c l : Nat, c < s'.size ^ 2 → l < s'.size ^ 2 →
      ∃ v, get_cell s' ((c : Int) + 1) ((l : Int) + 1) = .ok v ∧ v ≠ "#") ∧
    (∀ l : Nat, l < s'.size ^ 2 →
      ∃ L, get_line_elements s' ((l : Int) + 1) = .ok L ∧ L.Perm s'.chars) ∧
    (∀ c : Nat, c < s'.size ^ 2 →
      ∃ L, get_column_elements s' ((c : Int) + 1) = .ok L ∧ L.Perm s'.chars) ∧
    (∀ bc bl : Nat, bc < s'.size → bl < s'.size →
      ∃ L, get_square_elements s' ((bc : Int) + 1) ((bl : Int) + 1) = .ok L ∧
        L.Perm s'.chars) := by
  have hn : 0 < size.toNat := by omega
  have hn7 : size.toNat ≤ 7 := by omega
  rw [sudokuNew, if_neg (by simp), if_neg (by omega)] at hgen
  obtain ⟨hsize, hchars, hwf, hfilled, hdist⟩ :=
    genLoop_sound size.toNat hn randss _ (GenInv_init size.toNat hn) s' hgen
  rw [← hsize] at hchars hwf hfilled hdist
  have hn' : 0 < s'.size := by omega
  have hn7' : s'.size ≤ 7 := by omega
  obtain ⟨r1, r2, r3, r4⟩ := @full_grid_valid s' hwf hn' hn7' hchars hfilled hdist
  exact ⟨hsize, hchars, r1, r2, r3, r4⟩

theorem generated_sudoku_valid_w :
    sudoku4.size = (2 : Int).toNat ∧
    sudoku4.chars = AVAILABLE_CHARS.take (sudoku4.size ^ 2) ∧
    (∀ c l : Nat, c < sudoku4.size ^ 2 → l < sudoku4.size ^ 2 →
      ∃ v, get_cell sudoku4 ((c : Int) + 1) ((l : Int) + 1) = .ok v ∧ v ≠ "#") ∧
    (∀ l : Nat, l < sudoku4.size ^ 2 →
      ∃ L, get_line_elements sudoku4 ((l : Int) + 1) = .ok L ∧ L.Perm sudoku4.chars) ∧
    (∀ c : Nat, c < sudoku4.size ^ 2 →
      ∃ L, get_column_elements sudoku4 ((c : Int) + 1) = .ok L ∧ L.Perm sudoku4.chars) ∧
    (∀ bc bl : Nat, bc < sudoku4.size → bl < sudoku4.size →
      ∃ L, get_square_elements sudoku4 ((bc : Int) + 1) ((bl : Int) + 1) = .ok L ∧
        L.Perm sudoku4.chars) :=
  generated_sudoku_valid 2 genOracle2 sudoku4 (by decide) (by decide) (by rfl)

/-! ### The generation path never signals `IncorrectSize` -/

theorem get_line_elements_notSize (s : Sudoku) (line : Int) :
    ∀ v : Int, get_line_elements s line ≠ .error (.incorrectSize v) := by
  intro v
  rw [get_line_elements]
  split
  · split
    · simp
    · split
      · simp
      · simp
  · simp

theorem get_column_elements_notSize (s : Sudoku) (column : Int) :
    ∀ v : Int, get_column_elements s column ≠ .error (.incorrectSize v) := by
  intro v
  rw [get_column_elements]
  split
  · split
    · simp
    · simp
  · simp

theorem get_square_elements_notSize (s : Sudoku) (a b : Int) :
    ∀ v : Int, get_square_elements s a b ≠ .error (.incorrectSize v) := by
  intro v
  rw [get_square_elements]
  split
  · split
    · simp
    · simp
  · simp

theorem is_violating_notSize (s : Sudoku) (char : String) (column line : Int) :
    ∀ v : Int, is_violating s char column line ≠ .error (.incorrectSize v) := by
  intro v
  rw [is_violating]
  by_cases h1 : char.length ≠ 1
  · rw [if_pos h1]
    simp
  · rw [if_neg h1]
    by_cases h2 : char ∉ s.chars
    · rw [if_pos h2]
      simp
    · rw [if_neg h2]
      cases hL : get_line_elements s line with
      | error e =>
        intro hcontra
        cases hcontra
        exact get_line_elements_notSize s line v hL
      | ok L =>
        cases hC : get_column_elements s column with
        | error e =>
          intro hcontra
          cases hcontra
          exact get_column_elements_notSize s column v hC
        | ok Lc =>
          cases hS : get_square_elements s ((column - 1).fdiv (s.size : Int) + 1)
              ((line - 1).fdiv (s.size : Int) + 1) with
          | error e =>
            intro hcontra
            cases hcontra
            exact get_square_elements_notSize s _ _ v hS
          | ok Ls => simp

theorem insert_into_cell_notSize (s : Sudoku) (char : String) (column line : Int)
    (no_check : Bool) :
    ∀ v : Int, insert_into_cell s char column line no_check ≠ .error (.incorrectSize v) := by
  intro v
  rw [insert_into_cell]
  cases hiv : (if no_check then .ok false else is_violating s char column line :
      Except PyErr Bool) with
  | error e =>
    intro hcontra
    cases hcontra
    cases no_check with
    | true => simp at hiv
    | false =>
      simp only [Bool.false_eq_true, if_false] at hiv
      exact is_violating_notSize s char column line v hiv
  | ok b =>
    cases b with
    | true => simp
    | false =>
      cases hr1 : pyResolve s.sudoku.length ((line - 1).fdiv (s.size : Int)) with
      | none => simp only [hr1]; simp
      | some j1 =>
        simp only [hr1]
        cases hr2 : s.sudoku[j1]? with
        | none => simp only [hr2]; simp
        | some sudoku_line =>
          simp only [hr2]
          cases hr3 : pyResolve sudoku_line.length ((column - 1).fdiv (s.size : Int)) with
          | none => simp only [hr3]; simp
          | some j2 =>
            simp only [hr3]
            cases hr4 : sudoku_line[j2]? with
            | none => simp only [hr4]; simp
            | some sudoku_square =>
              simp only [hr4]
              cases hr5 : pyResolve sudoku_square.length ((line - 1).emod (s.size : Int)) with
              | none => simp only [hr5]; simp
              | some j3 =>
                simp only [hr5]
                cases hr6 : sudoku_square[j3]? with
                | none => simp only [hr6]; simp
                | some square_line =>
                  simp only [hr6]
                  cases hr7 : pyResolve square_line.length ((column - 1).emod (s.size : Int)) with
                  | none => simp only [hr7]; simp
                  | some j4 => simp only [hr7]; simp

theorem pickCond_notSize (s : Sudoku) (column line : Int) (pool : List String)
    (pick : Option String) :
    ∀ v : Int, pickCond s column line pool pick ≠ .error (.incorrectSize v) := by
  intro v
  cases pick with
  | none => simp [pickCond]
  | some p =>
    simp only [pickCond]
    cases hiv : is_violating s p column line with
    | error e =>
      intro hcontra
      cases hcontra
      exact is_violating_notSize s p column line v hiv
    | ok b => simp

theorem pickLoop_notSize (s : Sudoku) (column line : Int) :
    ∀ (rands : List Nat) (pool : List String) (pick : Option String) (v : Int),
      pickLoop s column line rands pool pick ≠ .error (.incorrectSize v) := by
  intro rands
  induction rands with
  | nil =>
    intro pool pick v hcontra
    simp only [pickLoop] at hcontra
    cases hpc : pickCond s column line pool pick with
    | error e =>
      simp only [hpc] at hcontra
      cases hcontra
      exact pickCond_notSize s column line pool pick v hpc
    | ok b =>
      simp only [hpc] at hcontra
      cases b with
      | true => cases hcontra
      | false =>
        cases pick with
        | some p => simp at hcontra
        | none => simp at hcontra
  | cons r rest ih =>
    intro pool pick v hcontra
    simp only [pickLoop] at hcontra
    cases hpc : pickCond s column line pool pick with
    | error e =>
      simp only [hpc] at hcontra
      cases hcontra
      exact pickCond_notSize s column line pool pick v hpc
    | ok b =>
      simp only [hpc] at hcontra
      cases b with
      | false =>
        cases pick with
        | some p => simp at hcontra
        | none => simp at hcontra
      | true =>
        cases hget : (if pool.length < 1 then s.chars else pool)[r %
            (if pool.length < 1 then s.chars else pool).length]? with
        | none => simp only [hget] at hcontra; simp at hcontra
        | some p =>
          simp only [hget] at hcontra
          exact ih _ _ v hcontra

theorem genLoop_notSize :
    ∀ (randss : List (List Nat)) (st : GenState) (v : Int),
      genLoop randss st ≠ .error (.incorrectSize v) := by
  intro randss
  induction randss with
  | nil =>
    intro st v hcontra
    rw [genLoop] at hcontra
    split at hcontra
    · cases hcontra
    · cases hcontra
  | cons rands rest ih =>
    intro st v hcontra
    rw [genLoop] at hcontra
    split at hcontra
    · split at hcontra
      · cases hq1 : pyGet st.treshold st.i with
        | none => simp only [hq1] at hcontra; simp at hcontra
        | some pool =>
          simp only [hq1] at hcontra
          cases hq2 : pickLoop st.sud st.column st.line rands pool none with
          | error e =>
            simp only [hq2] at hcontra
            cases hcontra
            exact pickLoop_notSize st.sud st.column st.line rands pool none v hq2
          | ok o =>
            cases o with
            | none => simp only [hq2] at hcontra; cases hcontra
            | some pr =>
              obtain ⟨pick, pool2⟩ := pr
              simp only [hq2] at hcontra
              cases hq3 : pySet st.treshold st.i pool2 with
              | none => simp only [hq3] at hcontra; simp at hcontra
              | some tr1 =>
                simp only [hq3] at hcontra
                cases hq4 : is_violating st.sud pick st.column st.line with
                | error e =>
                  simp only [hq4] at hcontra
                  cases hcontra
                  exact is_violating_notSize st.sud pick st.column st.line v hq4
                | ok b =>
                  simp only [hq4] at hcontra
                  cases b with
                  | true =>
                    cases hq5 : insert_into_cell st.sud "#" st.column st.line true with
                    | error e =>
                      simp only [hq5] at hcontra
                      cases hcontra
                      exact insert_into_cell_notSize st.sud "#" st.column st.line true v hq5
                    | ok sud2 =>
                      simp only [hq5] at hcontra
                      cases hq6 : pySet tr1 st.i st.sud.chars with
                      | none => simp only [hq6] at hcontra; simp at hcontra
                      | some tr2 =>
                        simp only [hq6] at hcontra
                        exact ih _ v hcontra
                  | false =>
                    cases hq5 : insert_into_cell st.sud pick st.column st.line true with
                    | error e =>
                      simp only [hq5] at hcontra
                      cases hcontra
                      exact insert_into_cell_notSize st.sud pick st.column st.line true v hq5
                    | ok sud2 =>
                      simp only [hq5] at hcontra
                      exact ih _ v hcontra
      · split at hcontra
        · exact ih _ v hcontra
        · exact ih _ v hcontra
    · cases hcontra

/-- C7: constructing a `Sudoku` without an architecture raises
`IncorrectSize size` (the spec's InvalidSize) exactly when the box-size
lies outside `[2, 7]`; for every size in `[2, 7]` no `IncorrectSize`
error can arise from the constructor, whatever the random stream does
(src/main.py lines 91-92). -/
theorem size_validation (size : Int) (randss : List (List Nat)) :
    (¬(2 ≤ size ∧ size ≤ 7) →
      sudokuNew size [] randss = .error (.incorrectSize size)) ∧
    ((2 ≤ size ∧ size ≤ 7) →
      ∀ v : Int, sudokuNew size [] randss ≠ .error (.incorrectSize v)) := by
  constructor
  · intro hbad
    simp only [sudokuNew]
    rw [if_neg (by simp), if_pos (by omega)]
  · intro hgood v hcontra
    simp only [sudokuNew] at hcontra
    rw [if_neg (by simp), if_neg (by omega)] at hcontra
    exact genLoop_notSize _ _ v hcontra

/-- Witness for C7: size 9 is rejected with `IncorrectSize 9`; size 3 never
produces an `IncorrectSize` error (checked against the empty stream). -/
theorem size_validation_w :
    sudokuNew 9 [] [] = .error (.incorrectSize 9) ∧
    sudokuNew 3 [] [] ≠ .error (.incorrectSize 3) :=
  ⟨(size_validation 9 []).1 (by decide), (size_validation 3 []).2 (by decide) 3⟩

/-- C9 counterexample: the alphabet table `AVAILABLE_CHARS` holds 64
symbols (9 digits + 26 uppercase + 26 lowercase + 3 punctuation), not the
65 the spec states. -/
theorem alphabet_table_cex :
    AVAILABLE_CHARS.length = 64 ∧ ¬ AVAILABLE_CHARS.length = 65 :=
  ⟨AVAILABLE_CHARS_length, by simp [AVAILABLE_CHARS_length]⟩

/-- C9 (amended): the alphabet table is an ordered list of 64 distinct
symbols — digits `1`-`9`, then uppercase `A`-`Z`, then lowercase `a`-`z`,
then `?`, `&`, `!` — and a generated sudoku of box-size `size` uses
exactly the first `size²` entries of the table as its alphabet, with no
duplicates (src/main.py lines 7 and 94-95). -/
theorem alphabet_spec :
    (AVAILABLE_CHARS =
      "123456789".toList.map (fun c => String.mk [c]) ++
      "ABCDEFGHIJKLMNOPQRSTUVWXYZ".toList.map (fun c => String.mk [c]) ++
      "abcdefghijklmnopqrstuvwxyz".toList.map (fun c => String.mk [c]) ++
      ["?", "&", "!"] ∧
      AVAILABLE_CHARS.length = 64 ∧ AVAILABLE_CHARS.Nodup) ∧
    ∀ (size : Int) (randss : List (List Nat)) (s : Sudoku),
      sudokuNew size [] randss = .ok (some s) →
      s.chars = AVAILABLE_CHARS.take (s.size ^ 2) ∧
      s.chars.length = s.size ^ 2 ∧ s.chars.Nodup := by
  refine ⟨⟨by decide, AVAILABLE_CHARS_length, AVAILABLE_CHARS_nodup⟩, ?_⟩
  intro size randss s hgen
  rw [sudokuNew, if_neg (by simp)] at hgen
  by_cases hsz : 2 ≤ size ∧ size < 8
  · rw [if_neg (not_not_intro hsz)] at hgen
    have hn : 0 < size.toNat := by omega
    obtain ⟨hsize, hchars, -, -, -⟩ :=
      genLoop_sound size.toNat hn randss _ (GenInv_init size.toNat hn) s hgen
    rw [← hsize] at hchars
    have hs7 : s.size ≤ 7 := by omega
    refine ⟨hchars, ?_, ?_⟩
    · rw [hchars, List.length_take, AVAILABLE_CHARS_length]
      have h49 := Nat.pow_le_pow_left hs7 2
      omega
    · rw [hchars]
      exact take_chars_nodup _
  · rw [if_pos hsz] at hgen
    cases hgen

/-- Witness for C9 (amended): the sudoku generated at size 2 from the
concrete oracle uses exactly the first 4 alphabet entries. -/
theorem alphabet_spec_w :
    sudoku4.chars = AVAILABLE_CHARS.take (sudoku4.size ^ 2) ∧
    sudoku4.chars.length = sudoku4.size ^ 2 ∧ sudoku4.chars.Nodup :=
  alphabet_spec.2 2 genOracle2 sudoku4 (by rfl)
